import Mathlib

/-!
# Verification of the TrajOpt TR-SQP motion-planning core

Shallow embedding, over `ℚ`, of the parts of the `trajopt` repository that the
frozen claims are about:

* the longest-valid-segment (LVS) sub-sampling of the continuous and discrete
  collision evaluators
  (`trajopt_ifopt/src/constraints/collision/continuous_collision_evaluators.cpp`),
* the gradient-result-set sorting, the collision cache and the numerical
  Jacobian of the continuous collision constraint,
* the constructor checks of `ContinuousCollisionNumericalConstraint`,
* the trust-region SQP solver
  (`trajopt_optimizers/trajopt_sqp/src/trust_region_sqp_solver.cpp`).

Machine doubles are embedded as exact rationals; the joint-space distance
`d = ‖x₁ − x₀‖₂`, which is irrational over `ℚ`, is carried as an explicit
parameter wherever the source computes it.
-/

namespace Trajopt

/-! ## LVS sub-sampling (continuous_collision_evaluators.cpp)

`Eigen::VectorXd::LinSpaced(cnt, a, b)` produces the values
`a + i · (b − a) / (cnt − 1)` for `i = 0, …, cnt − 1`.  A joint state is a
`List ℚ`; `interpRow x0 x1 cnt i` is row `i` of the `cnt × D` interpolated
sub-trajectory `subtraj` built column-wise by `LinSpaced` in
`CalcCollisionsHelper`. -/

/-- Row `i` of the linearly interpolated sub-trajectory with `cnt` rows
between joint states `x0` and `x1` (column-wise `LinSpaced`). -/
def interpRow (x0 x1 : List ℚ) (cnt i : ℕ) : List ℚ :=
  List.zipWith (fun a b => a + (i : ℚ) * ((b - a) / ((cnt : ℚ) - 1))) x0 x1

/-- The interpolated sub-trajectory with `cnt` rows between `x0` and `x1`. -/
def lvsSubtraj (x0 x1 : List ℚ) (cnt : ℕ) : List (List ℚ) :=
  (List.range cnt).map (interpRow x0 x1 cnt)

/-- The consecutive pairs `(subtraj.row i, subtraj.row (i+1))` of a `cnt`-row
interpolated sub-trajectory: the cast segments tested by the continuous
evaluator's sub-trajectory loop (`for i = 0; i < subtraj.rows() - 1`). -/
def castSegments (x0 x1 : List ℚ) (cnt : ℕ) : List (List ℚ × List ℚ) :=
  (List.range (cnt - 1)).map fun i => (interpRow x0 x1 cnt i, interpRow x0 x1 cnt (i + 1))

/-- The list of cast segments tested by
`LVSContinuousCollisionEvaluator::CalcCollisionsHelper` for joint states
`x0, x1` with joint-space distance `d = ‖x₁ − x₀‖₂` and
`L = longest_valid_segment_length`: if `d > L` the interpolated sub-trajectory
with `⌈d/L⌉ + 1` rows is built and each adjacent row pair is cast; otherwise a
single cast between `x0` and `x1` is performed. -/
def lvsContinuousCastSegments (x0 x1 : List ℚ) (d L : ℚ) : List (List ℚ × List ℚ) :=
  if d > L then castSegments x0 x1 ((⌈d / L⌉).toNat + 1) else [(x0, x1)]

/-- The list of sub-states tested by
`LVSDiscreteCollisionEvaluator::CalcCollisionsHelper`: `cnt = 2` unless
`d > L`, in which case `cnt = ⌈d/L⌉ + 1`; the interpolated sub-trajectory with
`cnt` rows is tested row by row. -/
def lvsDiscreteSubStates (x0 x1 : List ℚ) (d L : ℚ) : List (List ℚ) :=
  lvsSubtraj x0 x1 (if d > L then (⌈d / L⌉).toNat + 1 else 2)

lemma zipWith_left_of_eq_length {α : Type} (f : α → α → α) (h : ∀ a b, f a b = a) :
    ∀ (x y : List α), x.length = y.length → List.zipWith f x y = x := by
  intro x
  induction x with
  | nil => intro y _; simp
  | cons a x ih =>
    intro y hy
    cases y with
    | nil => simp at hy
    | cons b y =>
      simp only [List.zipWith_cons_cons, h]
      simp only [List.length_cons, Nat.add_right_cancel_iff] at hy
      rw [ih y hy]

lemma zipWith_right_of_eq_length {α : Type} (f : α → α → α) (h : ∀ a b, f a b = b) :
    ∀ (x y : List α), x.length = y.length → List.zipWith f x y = y := by
  intro x
  induction x with
  | nil => intro y hy; cases y with
      | nil => simp
      | cons b y => simp at hy
  | cons a x ih =>
    intro y hy
    cases y with
    | nil => simp at hy
    | cons b y =>
      simp only [List.zipWith_cons_cons, h]
      simp only [List.length_cons, Nat.add_right_cancel_iff] at hy
      rw [ih y hy]

lemma interpRow_zero (x0 x1 : List ℚ) (cnt : ℕ) (hlen : x0.length = x1.length) :
    interpRow x0 x1 cnt 0 = x0 := by
  unfold interpRow
  exact zipWith_left_of_eq_length _ (fun a b => by push_cast; ring) x0 x1 hlen

lemma interpRow_two_one (x0 x1 : List ℚ) (hlen : x0.length = x1.length) :
    interpRow x0 x1 2 1 = x1 := by
  unfold interpRow
  refine zipWith_right_of_eq_length _ (fun a b => ?_) x0 x1 hlen
  norm_num

lemma ceil_div_eq_one {d L : ℚ} (hL : 0 < L) (hdL : L ≤ d) (hdL' : ¬ d > L) :
    ⌈d / L⌉ = 1 := by
  have hd : d = L := le_antisymm (not_lt.mp hdL') hdL
  subst hd
  rw [div_self (ne_of_gt hL)]
  exact Int.ceil_one

lemma castSegments_two (x0 x1 : List ℚ) (hlen : x0.length = x1.length) :
    castSegments x0 x1 2 = [(x0, x1)] := by
  unfold castSegments
  have : List.range (2 - 1) = [0] := rfl
  rw [this]
  simp [interpRow_zero x0 x1 2 hlen, interpRow_two_one x0 x1 hlen]

/-- C5: for the continuous evaluator, `d < L` means exactly one cast segment
`(x₀, x₁)` is tested; `d ≥ L` means the cast segments come from the
linearly interpolated sub-trajectory with `⌈d/L⌉ + 1` sub-states. The
discrete evaluator always tests `max 2 (⌈d/L⌉ + 1)` sub-states. -/
theorem lvs_substate_counts (x0 x1 : List ℚ) (d L : ℚ)
    (hlen : x0.length = x1.length) (hL : 0 < L) :
    (d < L → lvsContinuousCastSegments x0 x1 d L = [(x0, x1)]) ∧
    (L ≤ d → lvsContinuousCastSegments x0 x1 d L =
      castSegments x0 x1 ((⌈d / L⌉).toNat + 1)) ∧
    (lvsDiscreteSubStates x0 x1 d L).length = max 2 ((⌈d / L⌉).toNat + 1) := by
  refine ⟨?_, ?_, ?_⟩
  · intro hdL
    unfold lvsContinuousCastSegments
    rw [if_neg (not_lt.mpr (le_of_lt hdL))]
  · intro hdL
    unfold lvsContinuousCastSegments
    by_cases hgt : d > L
    · rw [if_pos hgt]
    · rw [if_neg hgt]
      rw [ceil_div_eq_one hL hdL hgt]
      exact (castSegments_two x0 x1 hlen).symm
  · unfold lvsDiscreteSubStates lvsSubtraj
    rw [List.length_map, List.length_range]
    by_cases hgt : d > L
    · rw [if_pos hgt]
      have h1 : (1 : ℚ) < d / L := (one_lt_div hL).mpr hgt
      have h2 : (1 : ℤ) < ⌈d / L⌉ := by
        have := Int.lt_ceil.mpr (by exact_mod_cast h1 : ((1 : ℤ) : ℚ) < d / L)
        exact this
      have h3 : 2 ≤ (⌈d / L⌉).toNat := by omega
      omega
    · rw [if_neg hgt]
      have hle : d / L ≤ 1 := (div_le_one hL).mpr (not_lt.mp hgt)
      have h2 : ⌈d / L⌉ ≤ 1 := by
        exact Int.ceil_le.mpr (by exact_mod_cast hle)
      have h3 : (⌈d / L⌉).toNat ≤ 1 := by omega
      omega

/-- Witness for `lvs_substate_counts` at `x0 = [0]`, `x1 = [1]`, `d = 1`,
`L = 1/4`: `⌈4⌉ + 1 = 5` sub-states. -/
theorem lvs_substate_counts_witness :
    ([(0 : ℚ)].length = [(1 : ℚ)].length ∧ (0 : ℚ) < 1/4) ∧
    ((1 : ℚ) < 1/4 → lvsContinuousCastSegments [0] [1] 1 (1/4) = [([0], [1])]) ∧
    ((1/4 : ℚ) ≤ 1 → lvsContinuousCastSegments [0] [1] 1 (1/4) =
      castSegments [0] [1] ((⌈(1 : ℚ) / (1/4)⌉).toNat + 1)) ∧
    (lvsDiscreteSubStates [0] [1] 1 (1/4)).length =
      max 2 ((⌈(1 : ℚ) / (1/4)⌉).toNat + 1) :=
  ⟨⟨by decide, by norm_num⟩,
    lvs_substate_counts [0] [1] 1 (1/4) (by decide) (by norm_num)⟩

/-! ## Gradient result sets, sorting and truncation order (CalcCollisionData)

`GradientResultsSet` (trajopt_common/collision_types.h) aggregates the
gradient results of one `(link pair, sub-shape pair)` group.  Link names and
shape hashes are embedded as abstract numeric keys.  The
`getMaxError*`/`getMaxErrorWithBuffer*` accessors (whose bodies live outside
src/) are embedded as stored values. -/

structure GradientResultsSet where
  key : ℕ × ℕ
  shape_key : ℕ × ℕ
  coeff : ℚ
  maxError : ℚ
  maxErrorT0 : ℚ
  maxErrorT1 : ℚ
  maxErrorWithBuffer : ℚ
  maxErrorWithBufferT0 : ℚ
  maxErrorWithBufferT1 : ℚ
deriving DecidableEq, Repr

/-- The truncation-ordering step of
`LVSContinuousCollisionEvaluator::CalcCollisionData` (identical in the
discrete evaluator): when the number of gradient result sets exceeds
`bounds_size`, `std::sort` them descending by the error key selected by the
fixed flags (both free → `getMaxErrorWithBuffer`; `x₀` free →
`getMaxErrorWithBufferT0`; otherwise `getMaxErrorWithBufferT1`). -/
def sortGradientResultsSets (sets : List GradientResultsSet) (bounds_size : ℕ)
    (fixed0 fixed1 : Bool) : List GradientResultsSet :=
  if sets.length > bounds_size then
    if !fixed0 && !fixed1 then
      sets.mergeSort (fun a b => decide (b.maxErrorWithBuffer ≤ a.maxErrorWithBuffer))
    else if !fixed0 then
      sets.mergeSort (fun a b => decide (b.maxErrorWithBufferT0 ≤ a.maxErrorWithBufferT0))
    else
      sets.mergeSort (fun a b => decide (b.maxErrorWithBufferT1 ≤ a.maxErrorWithBufferT1))
  else sets

lemma mergeSort_desc_perm (k : GradientResultsSet → ℚ) (l : List GradientResultsSet) :
    (l.mergeSort (fun a b => decide (k b ≤ k a))).Perm l :=
  List.mergeSort_perm l _

lemma mergeSort_desc_sorted (k : GradientResultsSet → ℚ) (l : List GradientResultsSet) :
    (l.mergeSort (fun a b => decide (k b ≤ k a))).Pairwise (fun a b => k b ≤ k a) := by
  have h := @List.sorted_mergeSort GradientResultsSet
    (fun a b => decide (k b ≤ k a))
    (fun a b c hab hbc =>
      decide_eq_true (le_trans (of_decide_eq_true hbc) (of_decide_eq_true hab)))
    (fun a b => by
      rcases le_total (k b) (k a) with hle | hle
      · simp [hle]
      · simp [hle]) l
  exact h.imp fun hab => of_decide_eq_true hab

/-- C6: the gradient result sets are reordered only when their number exceeds
`bounds_size`, and then they are sorted descending by `getMaxErrorWithBuffer`
when both endpoints are free, by `getMaxErrorWithBufferT1` when only `x₀` is
fixed, and by `getMaxErrorWithBufferT0` when only `x₁` is fixed. -/
theorem calc_collision_data_sorting (sets : List GradientResultsSet) (bounds_size : ℕ)
    (fixed0 fixed1 : Bool) :
    (sets.length ≤ bounds_size → sortGradientResultsSets sets bounds_size fixed0 fixed1 = sets) ∧
    (bounds_size < sets.length →
      (sortGradientResultsSets sets bounds_size fixed0 fixed1).Perm sets ∧
      (fixed0 = false → fixed1 = false →
        (sortGradientResultsSets sets bounds_size fixed0 fixed1).Pairwise
          (fun a b => b.maxErrorWithBuffer ≤ a.maxErrorWithBuffer)) ∧
      (fixed0 = true → fixed1 = false →
        (sortGradientResultsSets sets bounds_size fixed0 fixed1).Pairwise
          (fun a b => b.maxErrorWithBufferT1 ≤ a.maxErrorWithBufferT1)) ∧
      (fixed0 = false → fixed1 = true →
        (sortGradientResultsSets sets bounds_size fixed0 fixed1).Pairwise
          (fun a b => b.maxErrorWithBufferT0 ≤ a.maxErrorWithBufferT0))) := by
  constructor
  · intro hle
    unfold sortGradientResultsSets
    rw [if_neg (not_lt.mpr hle)]
  · intro hgt
    refine ⟨?_, ?_, ?_, ?_⟩
    · unfold sortGradientResultsSets
      rw [if_pos hgt]
      rcases fixed0 with _ | _ <;> rcases fixed1 with _ | _ <;>
        simp only [Bool.not_false, Bool.not_true, Bool.and_self, Bool.false_and,
          Bool.and_false, Bool.true_and, Bool.and_true, if_true, if_false] <;>
        exact List.mergeSort_perm sets _
    · rintro rfl rfl
      unfold sortGradientResultsSets
      rw [if_pos hgt]
      simpa using mergeSort_desc_sorted (fun r => r.maxErrorWithBuffer) sets
    · rintro rfl rfl
      unfold sortGradientResultsSets
      rw [if_pos hgt]
      simpa using mergeSort_desc_sorted (fun r => r.maxErrorWithBufferT1) sets
    · rintro rfl rfl
      unfold sortGradientResultsSets
      rw [if_pos hgt]
      simpa using mergeSort_desc_sorted (fun r => r.maxErrorWithBufferT0) sets

/-- A sample gradient result set used by concrete witnesses. -/
def sampleGrs (e : ℚ) : GradientResultsSet :=
  { key := (0, 1), shape_key := (0, 0), coeff := 10,
    maxError := e, maxErrorT0 := e, maxErrorT1 := e,
    maxErrorWithBuffer := e, maxErrorWithBufferT0 := e, maxErrorWithBufferT1 := e }

/-- Witness for `calc_collision_data_sorting`: two sets, `bounds_size = 1`,
only `x₀` fixed, so the sets are sorted descending by
`getMaxErrorWithBufferT1`. -/
theorem calc_collision_data_sorting_witness :
    (1 < [sampleGrs 1, sampleGrs 2].length) ∧
    (sortGradientResultsSets [sampleGrs 1, sampleGrs 2] 1 true false).Pairwise
      (fun a b => b.maxErrorWithBufferT1 ≤ a.maxErrorWithBufferT1) :=
  ⟨by decide,
    (((calc_collision_data_sorting [sampleGrs 1, sampleGrs 2] 1 true false).2
      (by decide)).2.2.1 rfl rfl)⟩

/-! ## Collision cache (CalcCollisionData, both evaluators) -/

/-- Modelled from the spec: the `CollisionCache` container (trajopt_common's
cache header is not under src/) is "an owned LRU (or bounded FIFO) map sized
by construction; entries are immutable after insertion"; `put` stores an entry
under its hash key and `get` retrieves it.  Embedded as an association list
from hash keys to immutable entries. -/
structure CollisionCache (α : Type) where
  entries : List (ℕ × α)

def CollisionCache.get {α : Type} (c : CollisionCache α) (k : ℕ) : Option α :=
  (c.entries.find? (fun e => decide (e.1 = k))).map (fun e => e.2)

def CollisionCache.put {α : Type} (c : CollisionCache α) (k : ℕ) (d : α) : CollisionCache α :=
  ⟨(k, d) :: c.entries⟩

lemma CollisionCache.get_put {α : Type} (c : CollisionCache α) (k : ℕ) (d : α) :
    (c.put k d).get k = some d := by
  unfold CollisionCache.get CollisionCache.put
  simp [List.find?_cons]

/-- The caching skeleton of `LVSContinuousCollisionEvaluator::CalcCollisionData`
(the discrete evaluator's is identical): `key = getHash(*collision_config_,
dof_vals0, dof_vals1)`; on a hit the cached data is returned; on a miss the
collision data is computed, stored under `key` and returned.  `hash` abstracts
`getHash` at the evaluator's fixed collision configuration and `compute`
abstracts the contact evaluation and gradient aggregation (lines 91–159).  The
`Bool` result records whether `compute` ran. -/
def CalcCollisionData {α : Type} (hash : List ℚ → List ℚ → ℕ)
    (compute : List ℚ → List ℚ → α) (cache : CollisionCache α) (x0 x1 : List ℚ) :
    α × CollisionCache α × Bool :=
  match cache.get (hash x0 x1) with
  | some d => (d, cache, false)
  | none =>
    let d := compute x0 x1
    (d, cache.put (hash x0 x1) d, true)

/-- C7: a second `CalcCollisionData` call with the same configuration and the
same joint vectors hits the cache: it returns exactly the data the first call
returned (and, on a first-call miss, stored), leaves the cache unchanged and
does not recompute; moreover a first-call miss stores the returned data under
the query key. -/
theorem collision_cache_hit {α : Type} (hash : List ℚ → List ℚ → ℕ)
    (compute : List ℚ → List ℚ → α) (cache : CollisionCache α) (x0 x1 : List ℚ) :
    CalcCollisionData hash compute (CalcCollisionData hash compute cache x0 x1).2.1 x0 x1 =
      ((CalcCollisionData hash compute cache x0 x1).1,
        (CalcCollisionData hash compute cache x0 x1).2.1, false) ∧
    (cache.get (hash x0 x1) = none →
      (CalcCollisionData hash compute cache x0 x1).2.1.get (hash x0 x1) =
        some (CalcCollisionData hash compute cache x0 x1).1) := by
  constructor
  · rcases hc : cache.get (hash x0 x1) with _ | d
    · simp [CalcCollisionData, hc, CollisionCache.get_put]
    · simp [CalcCollisionData, hc]
  · intro hnone
    simp [CalcCollisionData, hnone, CollisionCache.get_put]

/-- Witness for `collision_cache_hit` with an empty cache, constant hash and a
computation returning `42`. -/
theorem collision_cache_hit_witness :
    ((⟨[]⟩ : CollisionCache ℚ).get 7 = none) ∧
    (CalcCollisionData (fun _ _ => 7) (fun _ _ => (42 : ℚ)) ⟨[]⟩ [0] [1]).2.1.get 7 =
      some (CalcCollisionData (fun _ _ => 7) (fun _ _ => (42 : ℚ)) ⟨[]⟩ [0] [1]).1 :=
  ⟨rfl, (collision_cache_hit (fun _ _ => 7) (fun _ _ => (42 : ℚ)) ⟨[]⟩ [0] [1]).2 rfl⟩

/-! ## Numerical Jacobian of the continuous collision constraint
(continuous_collision_numerical_constraint.cpp) -/

/-- The forward finite-difference step `delta = 1e-8` of `FillJacobianBlock`. -/
def fdDelta : ℚ := 1 / 100000000

/-- The error variant selected by the fixed flags in `GetValues` and
`FillJacobianBlock`: both endpoints free → `getMaxError()`, only `x₀` free →
`getMaxErrorT0()`, otherwise `getMaxErrorT1()`. -/
def selMaxError (fixed0 fixed1 : Bool) (r : GradientResultsSet) : ℚ :=
  if !fixed0 && !fixed1 then r.maxError else if !fixed0 then r.maxErrorT0 else r.maxErrorT1

/-- The constraint value contributed by one gradient result set in
`GetValues`: `coeff · maxError(variant)`. -/
def constraintRowValue (fixed0 fixed1 : Bool) (r : GradientResultsSet) : ℚ :=
  r.coeff * selMaxError fixed0 fixed1 r

/-- One Jacobian entry of `FillJacobianBlock`: the perturbed collision data is
searched (`std::find_if`) for a set with the baseline's `(key, shape_key)`;
if found, the entry is `coeff · Δ(maxError) / delta`; if not, the perturbed
contact is assumed cleared: `coeff · (−margin_buffer − maxError) / delta`. -/
def fillJacobianEntry (margin_buffer : ℚ) (fixed0 fixed1 : Bool)
    (perturbed : List GradientResultsSet) (baseline : GradientResultsSet) : ℚ :=
  match perturbed.find?
      (fun cr => decide (cr.key = baseline.key ∧ cr.shape_key = baseline.shape_key)) with
  | some it =>
    it.coeff * (selMaxError fixed0 fixed1 it - selMaxError fixed0 fixed1 baseline) / fdDelta
  | none =>
    baseline.coeff * (-1 * margin_buffer - selMaxError fixed0 fixed1 baseline) / fdDelta

/-- `FillJacobianBlock` of `ContinuousCollisionNumericalConstraint`: entry
`(i, j)` for row `i < min bounds_size (number of baseline sets)` and joint
column `j < n_dof`, where `perturbedAt j` is the collision data recomputed at
`x₀` with joint `j` perturbed by `delta`. -/
def FillJacobianBlock (margin_buffer : ℚ) (fixed0 fixed1 : Bool)
    (baseline : List GradientResultsSet) (perturbedAt : ℕ → List GradientResultsSet)
    (bounds_size n_dof : ℕ) (i j : ℕ) : ℚ :=
  if i < min bounds_size baseline.length ∧ j < n_dof then
    match baseline.get? i with
    | some b => fillJacobianEntry margin_buffer fixed0 fixed1 (perturbedAt j) b
    | none => 0
  else 0

/-- C8: every in-range Jacobian entry is a forward finite difference with step
`delta = 1e-8` of the constraint row value, where the perturbed run is matched
to the baseline set by equality of `(pair_key, shape_key)`; a baseline set
with no match is differenced against the assumed cleared value
`coeff · (−margin_buffer)`.  (`hcoeff` records that sets of one link pair
carry that pair's collision coefficient.) -/
theorem fill_jacobian_forward_difference (margin_buffer : ℚ) (fixed0 fixed1 : Bool)
    (baseline : List GradientResultsSet) (perturbedAt : ℕ → List GradientResultsSet)
    (bounds_size n_dof i j : ℕ) (b : GradientResultsSet)
    (hij : i < min bounds_size baseline.length ∧ j < n_dof)
    (hb : baseline.get? i = some b)
    (hcoeff : ∀ r ∈ perturbedAt j, r.key = b.key → r.coeff = b.coeff) :
    fdDelta = 1 / 100000000 ∧
    ((∃ it, (perturbedAt j).find?
          (fun cr => decide (cr.key = b.key ∧ cr.shape_key = b.shape_key)) = some it ∧
        it.key = b.key ∧ it.shape_key = b.shape_key ∧
        FillJacobianBlock margin_buffer fixed0 fixed1 baseline perturbedAt bounds_size n_dof i j =
          (constraintRowValue fixed0 fixed1 it - constraintRowValue fixed0 fixed1 b) / fdDelta) ∨
      ((perturbedAt j).find?
          (fun cr => decide (cr.key = b.key ∧ cr.shape_key = b.shape_key)) = none ∧
        FillJacobianBlock margin_buffer fixed0 fixed1 baseline perturbedAt bounds_size n_dof i j =
          (b.coeff * (-1 * margin_buffer) - constraintRowValue fixed0 fixed1 b) / fdDelta)) := by
  refine ⟨rfl, ?_⟩
  have hblock : FillJacobianBlock margin_buffer fixed0 fixed1 baseline perturbedAt
      bounds_size n_dof i j = fillJacobianEntry margin_buffer fixed0 fixed1 (perturbedAt j) b := by
    unfold FillJacobianBlock
    rw [if_pos hij, hb]
  cases hfind : (perturbedAt j).find?
      (fun cr => decide (cr.key = b.key ∧ cr.shape_key = b.shape_key)) with
  | some it =>
    left
    have hp : it.key = b.key ∧ it.shape_key = b.shape_key := by
      have := List.find?_some hfind
      simpa using this
    have hmem : it ∈ perturbedAt j := List.mem_of_find?_eq_some hfind
    have hc : it.coeff = b.coeff := hcoeff it hmem hp.1
    refine ⟨it, rfl, hp.1, hp.2, ?_⟩
    rw [hblock]
    unfold fillJacobianEntry
    rw [hfind]
    unfold constraintRowValue
    simp only [hc]
    ring
  | none =>
    right
    refine ⟨rfl, ?_⟩
    rw [hblock]
    unfold fillJacobianEntry
    rw [hfind]
    unfold constraintRowValue
    ring


/-- Witness for `fill_jacobian_forward_difference`: one baseline set, a
matching perturbed set with a different max error. -/
theorem fill_jacobian_forward_difference_witness :
    ((0 < min 1 [sampleGrs 1].length ∧ 0 < 1) ∧
      [sampleGrs 1].get? 0 = some (sampleGrs 1) ∧
      ∀ r ∈ [sampleGrs 2], r.key = (sampleGrs 1).key → r.coeff = (sampleGrs 1).coeff) ∧
    (fdDelta = 1 / 100000000 ∧
      ((∃ it, [sampleGrs 2].find?
            (fun cr => decide (cr.key = (sampleGrs 1).key ∧
              cr.shape_key = (sampleGrs 1).shape_key)) = some it ∧
          it.key = (sampleGrs 1).key ∧ it.shape_key = (sampleGrs 1).shape_key ∧
          FillJacobianBlock (1/100) false false [sampleGrs 1] (fun _ => [sampleGrs 2]) 1 1 0 0 =
            (constraintRowValue false false it - constraintRowValue false false (sampleGrs 1)) /
              fdDelta) ∨
        ([sampleGrs 2].find?
            (fun cr => decide (cr.key = (sampleGrs 1).key ∧
              cr.shape_key = (sampleGrs 1).shape_key)) = none ∧
          FillJacobianBlock (1/100) false false [sampleGrs 1] (fun _ => [sampleGrs 2]) 1 1 0 0 =
            ((sampleGrs 1).coeff * (-1 * (1/100)) -
              constraintRowValue false false (sampleGrs 1)) / fdDelta))) :=
  ⟨⟨⟨by decide, by decide⟩, by decide, by decide⟩,
    fill_jacobian_forward_difference (1/100) false false [sampleGrs 1] (fun _ => [sampleGrs 2])
      1 1 0 0 (sampleGrs 1) ⟨by decide, by decide⟩ (by decide) (by decide)⟩

/-! ## Constructor checks of ContinuousCollisionNumericalConstraint -/

inductive CtorOutcome where
  | ok
  | throwNullVars
  | throwEmptyVars
  | throwSizeMismatch
  | throwBothFixed
  | throwMaxNumCnt
  | nullDeref
deriving DecidableEq, Repr

/-- Whether the outcome is a thrown `std::runtime_error`. -/
def CtorOutcome.isThrow : CtorOutcome → Bool
  | .throwNullVars => true
  | .throwEmptyVars => true
  | .throwSizeMismatch => true
  | .throwBothFixed => true
  | .throwMaxNumCnt => true
  | _ => false

/-- The argument checks of the `ContinuousCollisionNumericalConstraint`
constructor in source order.  A position-variable pointer is `none` when null
and `some rows` otherwise; a `GetRows()` call through a null pointer is the
distinguished outcome `nullDeref`. -/
def continuousCollisionNumericalConstraintCtor (rows0 rows1 : Option ℤ)
    (vars0_fixed vars1_fixed : Bool) (max_num_cnt : ℤ) : CtorOutcome :=
  if rows0 = none ∧ rows1 = none then .throwNullVars
  else
    match rows0 with
    | none => .nullDeref
    | some r0 =>
      if ¬ (0 < r0) then .throwEmptyVars
      else
        match rows1 with
        | none => .nullDeref
        | some r1 =>
          if r0 ≠ r1 then .throwSizeMismatch
          else if vars0_fixed ∧ vars1_fixed then .throwBothFixed
          else if max_num_cnt < 1 then .throwMaxNumCnt
          else .ok

lemma isThrow_ite (c : Prop) [Decidable c] (a b : CtorOutcome) :
    (if c then a else b).isThrow = if c then a.isThrow else b.isThrow :=
  apply_ite CtorOutcome.isThrow c a b

/-- C10: the constructor throws on mismatched row counts, on both endpoints
fixed, on `max_num_cnt < 1` and on two null pointers; a null pointer at
index 0 together with a non-null pointer at index 1 passes the null check
(which requires both pointers null) and reaches the null dereference. -/
theorem ctor_argument_checks :
    (∀ (r0 r1 : ℤ) (f0 f1 : Bool) (m : ℤ), r0 ≠ r1 →
      (continuousCollisionNumericalConstraintCtor (some r0) (some r1) f0 f1 m).isThrow = true) ∧
    (∀ (r0 r1 : ℤ) (m : ℤ),
      (continuousCollisionNumericalConstraintCtor (some r0) (some r1) true true m).isThrow = true) ∧
    (∀ (r0 r1 : ℤ) (f0 f1 : Bool) (m : ℤ), m < 1 →
      (continuousCollisionNumericalConstraintCtor (some r0) (some r1) f0 f1 m).isThrow = true) ∧
    (∀ (f0 f1 : Bool) (m : ℤ),
      continuousCollisionNumericalConstraintCtor none none f0 f1 m = .throwNullVars) ∧
    (∀ (r1 : ℤ) (f0 f1 : Bool) (m : ℤ),
      continuousCollisionNumericalConstraintCtor none (some r1) f0 f1 m = .nullDeref) := by
  refine ⟨?_, ?_, ?_, ?_, ?_⟩
  · intro r0 r1 f0 f1 m hne
    simp only [continuousCollisionNumericalConstraintCtor, isThrow_ite]
    split_ifs <;> simp_all [CtorOutcome.isThrow]
  · intro r0 r1 m
    simp only [continuousCollisionNumericalConstraintCtor, isThrow_ite]
    split_ifs <;> simp_all [CtorOutcome.isThrow]
  · intro r0 r1 f0 f1 m hm
    simp only [continuousCollisionNumericalConstraintCtor, isThrow_ite]
    split_ifs <;> simp_all [CtorOutcome.isThrow]
  · intro f0 f1 m
    unfold continuousCollisionNumericalConstraintCtor
    simp
  · intro r1 f0 f1 m
    unfold continuousCollisionNumericalConstraintCtor
    simp

/-- Witness for `ctor_argument_checks` at concrete arguments. -/
theorem ctor_argument_checks_witness :
    ((3 : ℤ) ≠ 2 ∧
      (continuousCollisionNumericalConstraintCtor (some 3) (some 2) false false 3).isThrow =
        true) ∧
    ((0 : ℤ) < 1 ∧
      (continuousCollisionNumericalConstraintCtor (some 3) (some 3) false false 0).isThrow =
        true) ∧
    continuousCollisionNumericalConstraintCtor none (some 3) false false 3 =
      CtorOutcome.nullDeref :=
  ⟨⟨by decide, ctor_argument_checks.1 3 2 false false 3 (by decide)⟩,
    ⟨by decide, ctor_argument_checks.2.2.1 3 3 false false 0 (by decide)⟩,
    ctor_argument_checks.2.2.2.2 3 false false 3⟩

/-! ## Trust-region SQP solver (trust_region_sqp_solver.cpp)

The solver is embedded as a fuel-indexed state machine over `ℚ`.  The QP
problem, the convex solver and the registered callbacks are external
collaborators: each `solveQPProblem` call consults an oracle indexed by a
running attempt counter which either fails (`qp_solver->solve()` returned
false) or yields the values the QP problem evaluates at the new variables
(convexified and exact costs and constraint violations) together with the
conjoined callback result.  The wall-clock test `elapsed_time > max_time` is
an oracle indexed by a running counter.  The box is stored by the source as a
constant vector (`setBoxSize(Eigen::VectorXd::Constant(n, box_size))`) and
only scaled uniformly, so its `maxCoeff` is embedded as the scalar
`box_size`.  `accepted_steps`, `qp_attempt` and `time_check` are ghost
counters; the loops additionally return the trace of
`(box_size, accepted_steps)` at the top of every executed trust-region
iteration. -/

inductive SQPStatus where
  | RUNNING
  | NLP_CONVERGED
  | ITERATION_LIMIT
  | OPT_TIME_LIMIT
  | PENALTY_ITERATION_LIMIT
  | QP_SOLVER_ERROR
  | CALLBACK_STOPPED
deriving DecidableEq, Repr

structure SQPParameters where
  initial_trust_box_size : ℚ
  min_trust_box_size : ℚ
  trust_shrink_ratio : ℚ
  trust_expand_ratio : ℚ
  improve_ratio_threshold : ℚ
  min_approx_improve : ℚ
  min_approx_improve_frac : ℚ
  max_iterations : ℕ
  max_merit_coeff_increases : ℕ
  merit_coeff_increase_ratio : ℚ
  initial_merit_error_coeff : ℚ
  cnt_tolerance : ℚ
  max_qp_solver_failures : ℕ
  inflate_constraints_individually : Bool
deriving DecidableEq, Repr

/-- A successful QP solve: the solution values and the evaluations the QP
problem performs on them, plus the conjoined result of all callbacks. -/
structure QPSolveSuccess where
  new_var_vals : List ℚ
  new_approx_costs : List ℚ
  new_approx_constraint_violations : List ℚ
  new_costs : List ℚ
  new_constraint_violations : List ℚ
  callbacks_ok : Bool
deriving DecidableEq, Repr

/-- The external collaborators of one SQP run: QP solve outcomes by attempt
index (`none` = convex solver failure) and the wall-clock budget test by
check index. -/
structure SQPOracle where
  qp : ℕ → Option QPSolveSuccess
  time_exceeded : ℕ → Bool

structure SQPResults where
  best_var_vals : List ℚ := []
  best_exact_merit : ℚ := 0
  best_costs : List ℚ := []
  best_constraint_violations : List ℚ := []
  best_approx_merit : ℚ := 0
  best_approx_costs : List ℚ := []
  best_approx_constraint_violations : List ℚ := []
  new_var_vals : List ℚ := []
  new_exact_merit : ℚ := 0
  new_costs : List ℚ := []
  new_constraint_violations : List ℚ := []
  new_approx_merit : ℚ := 0
  new_approx_costs : List ℚ := []
  new_approx_constraint_violations : List ℚ := []
  approx_merit_improve : ℚ := 0
  exact_merit_improve : ℚ := 0
  merit_improve_ratio : ℚ := 0
  box_size : ℚ := 0
  merit_error_coeffs : List ℚ := []
  overall_iteration : ℕ := 0
  trust_region_iteration : ℕ := 0
  convexify_iteration : ℕ := 0
  penalty_iteration : ℕ := 0
  accepted_steps : ℕ := 0
  qp_attempt : ℕ := 0
  time_check : ℕ := 0
deriving DecidableEq, Repr

/-- `Eigen` dot product of two coefficient vectors. -/
def dotProd (a b : List ℚ) : ℚ := (List.zipWith (fun x y => x * y) a b).sum

/-- `Eigen maxCoeff` of a vector (only consulted on non-empty vectors). -/
def maxCoeff : List ℚ → ℚ
  | [] => 0
  | x :: xs => xs.foldl max x

/-- The state updates of a successful `solveQPProblem` call (lines 348–375):
record the new values, the convexified and exact merits at the new variable
values and the improvements against `best_exact_merit`. -/
def qpSuccessResults (r : SQPResults) (a : QPSolveSuccess) : SQPResults :=
  let new_approx_merit :=
    a.new_approx_costs.sum + dotProd a.new_approx_constraint_violations r.merit_error_coeffs
  let new_exact_merit :=
    a.new_costs.sum + dotProd a.new_constraint_violations r.merit_error_coeffs
  { r with
    qp_attempt := r.qp_attempt + 1,
    new_var_vals := a.new_var_vals,
    new_approx_costs := a.new_approx_costs,
    new_approx_constraint_violations := a.new_approx_constraint_violations,
    new_approx_merit := new_approx_merit,
    approx_merit_improve := r.best_exact_merit - new_approx_merit,
    new_costs := a.new_costs,
    new_constraint_violations := a.new_constraint_violations,
    new_exact_merit := new_exact_merit,
    exact_merit_improve := r.best_exact_merit - new_exact_merit,
    merit_improve_ratio :=
      (r.best_exact_merit - new_exact_merit) / (r.best_exact_merit - new_approx_merit) }

/-- `TrustRegionSQPSolver::solveQPProblem`: on convex-solver failure return
`QP_SOLVER_ERROR`; on success record the new values and merits, then return
`CALLBACK_STOPPED` if any callback returned false, else `RUNNING`. -/
def solveQPProblem (o : SQPOracle) (r : SQPResults) : SQPStatus × SQPResults :=
  match o.qp r.qp_attempt with
  | none => (.QP_SOLVER_ERROR, { r with qp_attempt := r.qp_attempt + 1 })
  | some a =>
    let r := qpSuccessResults r a
    if a.callbacks_ok then (.RUNNING, r) else (.CALLBACK_STOPPED, r)

/-- The step-acceptance branch of `runTrustRegionLoop`: promote the new
values to best, expand the box and leave the loop to re-convexify. -/
def acceptTrustRegionStep (p : SQPParameters) (r : SQPResults) : SQPResults :=
  { r with
    best_var_vals := r.new_var_vals,
    best_exact_merit := r.new_exact_merit,
    best_constraint_violations := r.new_constraint_violations,
    best_costs := r.new_costs,
    best_approx_merit := r.new_approx_merit,
    best_approx_constraint_violations := r.new_approx_constraint_violations,
    best_approx_costs := r.new_approx_costs,
    box_size := r.box_size * p.trust_expand_ratio,
    accepted_steps := r.accepted_steps + 1 }

/-- The outcome of one iteration of the trust-region while-loop: `cont`
continues the loop with an updated failure count, status and state; `stop`
returns from `runTrustRegionLoop`. -/
inductive TRStep where
  | cont (qp_solver_failures : ℕ) (status : SQPStatus) (results : SQPResults)
  | stop (status : SQPStatus) (results : SQPResults)
deriving Repr

/-- The state carried by a trust-region loop step outcome. -/
def TRStep.resultsOf : TRStep → SQPResults
  | .cont _ _ r => r
  | .stop _ r => r

/-- The status carried by a trust-region loop step outcome. -/
def TRStep.statusOf : TRStep → SQPStatus
  | .cont _ st _ => st
  | .stop st _ => st

/-- Whether the step outcome continues the trust-region while-loop. -/
def TRStep.isCont : TRStep → Bool
  | .cont _ _ _ => true
  | .stop _ _ => false

/-- Whether the step outcome returns from the loop with the given status. -/
def TRStep.isStopWith (st : SQPStatus) : TRStep → Bool
  | .stop st' _ => decide (st' = st)
  | .cont _ _ _ => false

/-- One iteration of the trust-region loop body (lines 240–337): bump the
iteration counters, solve the QP; a non-`RUNNING` status counts as a solver
failure and shrinks the box (clamping it to `min_trust_box_size` on the
`max_qp_solver_failures`-th failure, returning on one more); otherwise test
the two small-improvement convergence exits, then either shrink (step
rejected) or accept the step and return. -/
def trustRegionIterationBody (p : SQPParameters) (o : SQPOracle)
    (qp_solver_failures : ℕ) (r : SQPResults) : TRStep :=
  let r := { r with overall_iteration := r.overall_iteration + 1,
                    trust_region_iteration := r.trust_region_iteration + 1 }
  match solveQPProblem o r with
  | (.RUNNING, r) =>
    if r.approx_merit_improve < p.min_approx_improve then .stop .NLP_CONVERGED r
    else if r.approx_merit_improve / r.best_exact_merit < p.min_approx_improve_frac then
      .stop .NLP_CONVERGED r
    else if r.exact_merit_improve < 0 ∨ r.merit_improve_ratio < p.improve_ratio_threshold then
      .cont qp_solver_failures .RUNNING { r with box_size := r.box_size * p.trust_shrink_ratio }
    else
      .stop .RUNNING (acceptTrustRegionStep p r)
  | (st, r) =>
    let failures := qp_solver_failures + 1
    if failures < p.max_qp_solver_failures then
      .cont failures st { r with box_size := r.box_size * p.trust_shrink_ratio }
    else if failures = p.max_qp_solver_failures then
      .cont failures st { r with box_size := p.min_trust_box_size }
    else
      .stop st r

/-- `TrustRegionSQPSolver::runTrustRegionLoop`, fuel-indexed: while
`box_size ≥ min_trust_box_size`, run `trustRegionIterationBody`.  Returns the
final status and state plus the `(box_size, accepted_steps)` trace at the top
of each executed iteration; `none` when the fuel is exhausted. -/
def runTrustRegionLoop (p : SQPParameters) (o : SQPOracle) :
    ℕ → ℕ → SQPStatus → SQPResults → Option (SQPStatus × SQPResults × List (ℚ × ℕ))
  | 0, _, _, _ => none
  | fuel + 1, failures, status, r =>
    if r.box_size < p.min_trust_box_size then some (status, r, [])
    else
      let entry : ℚ × ℕ := (r.box_size, r.accepted_steps)
      match trustRegionIterationBody p o failures r with
      | .stop st r2 => some (st, r2, [entry])
      | .cont f st r2 =>
        match runTrustRegionLoop p o fuel f st r2 with
        | none => none
        | some (st2, r3, tr) => some (st2, r3, entry :: tr)

/-- `TrustRegionSQPSolver::stepSQPSolver`: convexify (a no-op for the
oracle-driven embedding), run the trust-region loop, then convert a tiny
trust region into `NLP_CONVERGED`; the `Bool` is the C++ return value
(whether the convexification loop should break). -/
def stepSQPSolver (p : SQPParameters) (o : SQPOracle) (fuel : ℕ) (status : SQPStatus)
    (r : SQPResults) : Option (Bool × SQPStatus × SQPResults × List (ℚ × ℕ)) :=
  let r := { r with convexify_iteration := r.convexify_iteration + 1,
                    trust_region_iteration := 0 }
  match runTrustRegionLoop p o fuel 0 status r with
  | none => none
  | some (st, r2, tr) =>
    if st = .NLP_CONVERGED then some (true, .NLP_CONVERGED, r2, tr)
    else if r2.box_size < p.min_trust_box_size then some (true, .NLP_CONVERGED, r2, tr)
    else some (false, st, r2, tr)

/-- The convexification loop of `TrustRegionSQPSolver::solve`
(`for convex_iteration = 1; convex_iteration < 100`): check the time budget
and the overall-iteration budget, then `stepSQPSolver`; break when it returns
true.  The first argument is the remaining loop count (99 from `solve`). -/
def convexificationLoop (p : SQPParameters) (o : SQPOracle) (fuel : ℕ) :
    ℕ → SQPStatus → SQPResults → Option (SQPStatus × SQPResults × List (ℚ × ℕ))
  | 0, status, r => some (status, r, [])
  | n + 1, status, r =>
    let t := r.time_check
    let r := { r with time_check := t + 1 }
    if o.time_exceeded t then some (.OPT_TIME_LIMIT, r, [])
    else if p.max_iterations ≤ r.overall_iteration then some (.ITERATION_LIMIT, r, [])
    else
      match stepSQPSolver p o fuel status r with
      | none => none
      | some (done, st, r2, tr) =>
        if done then some (st, r2, tr)
        else
          match convexificationLoop p o fuel n st r2 with
          | none => none
          | some (st2, r3, tr2) => some (st2, r3, tr ++ tr2)

/-- `TrustRegionSQPSolver::verifySQPSolverConvergence`: constraints are
satisfied when there are none, or when the largest best violation is below
`cnt_tolerance`. -/
def verifySQPSolverConvergence (p : SQPParameters) (r : SQPResults) : Bool :=
  if r.best_constraint_violations.isEmpty then true
  else decide (maxCoeff r.best_constraint_violations < p.cnt_tolerance)

/-- `TrustRegionSQPSolver::adjustPenalty`: inflate the merit coefficients
(individually on the violated constraints, or uniformly), reset the box to
`max(box, min_trust_box_size / trust_shrink_ratio · 1.5)` and recompute the
best exact merit with the new coefficients. -/
def adjustPenalty (p : SQPParameters) (r : SQPResults) : SQPResults :=
  let coeffs :=
    if p.inflate_constraints_individually then
      List.zipWith
        (fun v c => if p.cnt_tolerance < v then c * p.merit_coeff_increase_ratio else c)
        r.best_constraint_violations r.merit_error_coeffs
    else
      r.merit_error_coeffs.map (fun c => c * p.merit_coeff_increase_ratio)
  { r with
    box_size := max r.box_size (p.min_trust_box_size / p.trust_shrink_ratio * (3/2)),
    merit_error_coeffs := coeffs,
    best_exact_merit := r.best_costs.sum + dotProd r.best_constraint_violations coeffs }

/-- The penalty iteration loop of `TrustRegionSQPSolver::solve`: run the
convexification loop, return `NLP_CONVERGED` when the best violations pass
`verifySQPSolverConvergence`, propagate the iteration/time limits, otherwise
adjust the penalty and continue; when the loop count runs out the status is
still `RUNNING`. -/
def penaltyLoop (p : SQPParameters) (o : SQPOracle) (fuel : ℕ) :
    ℕ → ℕ → SQPResults → Option (SQPStatus × SQPResults × List (ℚ × ℕ))
  | _, 0, r => some (.RUNNING, r, [])
  | iter, n + 1, r =>
    let r := { r with penalty_iteration := iter, convexify_iteration := 0 }
    match convexificationLoop p o fuel 99 .RUNNING r with
    | none => none
    | some (st, r2, tr) =>
      if verifySQPSolverConvergence p r2 then some (.NLP_CONVERGED, r2, tr)
      else if st = .ITERATION_LIMIT ∨ st = .OPT_TIME_LIMIT then some (st, r2, tr)
      else
        match penaltyLoop p o fuel (iter + 1) n (adjustPenalty p r2) with
        | none => none
        | some (st2, r3, tr2) => some (st2, r3, tr ++ tr2)

/-- `TrustRegionSQPSolver::solve` (with `init`): snapshot the exact costs and
violations at `x₀`, set the initial box and merit coefficients, run the
penalty loop, and turn a still-`RUNNING` status into
`PENALTY_ITERATION_LIMIT`. -/
def solve (p : SQPParameters) (o : SQPOracle) (fuel : ℕ) (x0 : List ℚ)
    (init_costs init_constraint_violations : List ℚ) :
    Option (SQPStatus × SQPResults × List (ℚ × ℕ)) :=
  let coeffs := List.replicate init_constraint_violations.length p.initial_merit_error_coeff
  let r : SQPResults :=
    { best_var_vals := x0,
      best_costs := init_costs,
      best_constraint_violations := init_constraint_violations,
      merit_error_coeffs := coeffs,
      box_size := p.initial_trust_box_size,
      best_exact_merit := init_costs.sum + dotProd init_constraint_violations coeffs }
  match penaltyLoop p o fuel 0 p.max_merit_coeff_increases r with
  | none => none
  | some (st, r2, tr) =>
    if st = .RUNNING then some (.PENALTY_ITERATION_LIMIT, r2, tr) else some (st, r2, tr)

/-! ### Characterizations of one trust-region iteration -/

lemma solveQPProblem_fail (o : SQPOracle) (r : SQPResults) (h : o.qp r.qp_attempt = none) :
    solveQPProblem o r = (.QP_SOLVER_ERROR, { r with qp_attempt := r.qp_attempt + 1 }) := by
  simp [solveQPProblem, h]

lemma solveQPProblem_success (o : SQPOracle) (r : SQPResults) (a : QPSolveSuccess)
    (h : o.qp r.qp_attempt = some a) :
    solveQPProblem o r =
      (if a.callbacks_ok then .RUNNING else .CALLBACK_STOPPED, qpSuccessResults r a) := by
  simp only [solveQPProblem, h]
  cases a.callbacks_ok <;> simp

lemma trustRegionIterationBody_fail (p : SQPParameters) (o : SQPOracle) (f : ℕ)
    (r : SQPResults) (h : o.qp r.qp_attempt = none) :
    trustRegionIterationBody p o f r =
      if f + 1 < p.max_qp_solver_failures then
        .cont (f + 1) .QP_SOLVER_ERROR
          { r with overall_iteration := r.overall_iteration + 1,
                   trust_region_iteration := r.trust_region_iteration + 1,
                   qp_attempt := r.qp_attempt + 1,
                   box_size := r.box_size * p.trust_shrink_ratio }
      else if f + 1 = p.max_qp_solver_failures then
        .cont (f + 1) .QP_SOLVER_ERROR
          { r with overall_iteration := r.overall_iteration + 1,
                   trust_region_iteration := r.trust_region_iteration + 1,
                   qp_attempt := r.qp_attempt + 1,
                   box_size := p.min_trust_box_size }
      else
        .stop .QP_SOLVER_ERROR
          { r with overall_iteration := r.overall_iteration + 1,
                   trust_region_iteration := r.trust_region_iteration + 1,
                   qp_attempt := r.qp_attempt + 1 } := by
  have h' : o.qp (SQPResults.qp_attempt
      { r with overall_iteration := r.overall_iteration + 1,
               trust_region_iteration := r.trust_region_iteration + 1 }) = none := h
  simp only [trustRegionIterationBody, solveQPProblem_fail _ _ h']

lemma trustRegionIterationBody_success (p : SQPParameters) (o : SQPOracle) (f : ℕ)
    (r : SQPResults) (a : QPSolveSuccess) (h : o.qp r.qp_attempt = some a) :
    trustRegionIterationBody p o f r =
      (let r2 := qpSuccessResults
          { r with overall_iteration := r.overall_iteration + 1,
                   trust_region_iteration := r.trust_region_iteration + 1 } a
       if a.callbacks_ok then
         if r2.approx_merit_improve < p.min_approx_improve then .stop .NLP_CONVERGED r2
         else if r2.approx_merit_improve / r2.best_exact_merit < p.min_approx_improve_frac then
           .stop .NLP_CONVERGED r2
         else if r2.exact_merit_improve < 0 ∨ r2.merit_improve_ratio < p.improve_ratio_threshold then
           .cont f .RUNNING { r2 with box_size := r2.box_size * p.trust_shrink_ratio }
         else .stop .RUNNING (acceptTrustRegionStep p r2)
       else
         if f + 1 < p.max_qp_solver_failures then
           .cont (f + 1) .CALLBACK_STOPPED { r2 with box_size := r2.box_size * p.trust_shrink_ratio }
         else if f + 1 = p.max_qp_solver_failures then
           .cont (f + 1) .CALLBACK_STOPPED { r2 with box_size := p.min_trust_box_size }
         else .stop .CALLBACK_STOPPED r2) := by
  have h' : o.qp (SQPResults.qp_attempt
      { r with overall_iteration := r.overall_iteration + 1,
               trust_region_iteration := r.trust_region_iteration + 1 }) = some a := h
  simp only [trustRegionIterationBody, solveQPProblem_success _ _ _ h']
  cases a.callbacks_ok <;> simp

lemma qpSuccessResults_spec (r : SQPResults) (a : QPSolveSuccess) :
    (qpSuccessResults r a).exact_merit_improve =
      r.best_exact_merit - (qpSuccessResults r a).new_exact_merit ∧
    (qpSuccessResults r a).merit_improve_ratio =
      (qpSuccessResults r a).exact_merit_improve / (qpSuccessResults r a).approx_merit_improve ∧
    (qpSuccessResults r a).best_exact_merit = r.best_exact_merit ∧
    (qpSuccessResults r a).box_size = r.box_size ∧
    (qpSuccessResults r a).accepted_steps = r.accepted_steps ∧
    (qpSuccessResults r a).best_constraint_violations = r.best_constraint_violations ∧
    (qpSuccessResults r a).new_constraint_violations = a.new_constraint_violations ∧
    (qpSuccessResults r a).best_var_vals = r.best_var_vals := by
  simp [qpSuccessResults]

/-- C3 (amended): under `0 < min_approx_improve` and
`0 < improve_ratio_threshold`, an accepted trust-region step strictly
decreases `best_exact_merit`; a converged exit carries
`approx_merit_improve < min_approx_improve` or a small improvement fraction;
and a rejected QP-success step keeps status `RUNNING`, keeps
`best_exact_merit`, shrinks the box, and has
`min_approx_improve ≤ approx_merit_improve` (so the small-improvement bound
claimed for "every other case" fails for it). -/
theorem trust_region_step_merit (p : SQPParameters) (o : SQPOracle) (f : ℕ) (r : SQPResults)
    (h1 : 0 < p.min_approx_improve) (h2 : 0 < p.improve_ratio_threshold) :
    ((trustRegionIterationBody p o f r).isStopWith .RUNNING = true →
      (trustRegionIterationBody p o f r).resultsOf.best_exact_merit < r.best_exact_merit) ∧
    ((trustRegionIterationBody p o f r).isStopWith .NLP_CONVERGED = true →
      ((trustRegionIterationBody p o f r).resultsOf.approx_merit_improve <
          p.min_approx_improve ∨
        (trustRegionIterationBody p o f r).resultsOf.approx_merit_improve /
            (trustRegionIterationBody p o f r).resultsOf.best_exact_merit <
          p.min_approx_improve_frac)) ∧
    ((trustRegionIterationBody p o f r).isCont = true →
      (trustRegionIterationBody p o f r).statusOf = .RUNNING →
      p.min_approx_improve ≤
          (trustRegionIterationBody p o f r).resultsOf.approx_merit_improve ∧
        ((trustRegionIterationBody p o f r).resultsOf.exact_merit_improve < 0 ∨
          (trustRegionIterationBody p o f r).resultsOf.merit_improve_ratio <
            p.improve_ratio_threshold) ∧
        (trustRegionIterationBody p o f r).resultsOf.best_exact_merit = r.best_exact_merit ∧
        (trustRegionIterationBody p o f r).resultsOf.box_size =
          r.box_size * p.trust_shrink_ratio) := by
  cases hqp : o.qp r.qp_attempt with
  | none =>
    rw [trustRegionIterationBody_fail p o f r hqp]
    split_ifs <;>
      exact ⟨fun h => by simp [TRStep.isStopWith] at h,
        fun h => by simp [TRStep.isStopWith] at h,
        fun h h' => by simp [TRStep.isCont, TRStep.statusOf] at h h'⟩
  | some a =>
    rw [trustRegionIterationBody_success p o f r a hqp]
    have hspec := qpSuccessResults_spec
      { r with overall_iteration := r.overall_iteration + 1,
               trust_region_iteration := r.trust_region_iteration + 1 } a
    set r2 := qpSuccessResults
      { r with overall_iteration := r.overall_iteration + 1,
               trust_region_iteration := r.trust_region_iteration + 1 } a with hr2
    have hbest : r2.best_exact_merit = r.best_exact_merit := hspec.2.2.1
    have hbox : r2.box_size = r.box_size := hspec.2.2.2.1
    cases hcb : a.callbacks_ok with
    | false =>
      rw [if_neg (by simp)]
      split_ifs <;>
        exact ⟨fun h => by simp [TRStep.isStopWith] at h,
          fun h => by simp [TRStep.isStopWith] at h,
          fun h h' => by simp [TRStep.isCont, TRStep.statusOf] at h h'⟩
    | true =>
      rw [if_pos rfl]
      split_ifs with hA hB hC
      · refine ⟨fun h => by simp [TRStep.isStopWith] at h, fun _ => ?_,
          fun h h' => by simp [TRStep.isCont] at h⟩
        exact Or.inl hA
      · refine ⟨fun h => by simp [TRStep.isStopWith] at h, fun _ => ?_,
          fun h h' => by simp [TRStep.isCont] at h⟩
        exact Or.inr hB
      · refine ⟨fun h => by simp [TRStep.isStopWith] at h,
          fun h => by simp [TRStep.isStopWith] at h, fun _ _ => ?_⟩
        push_neg at hA
        exact ⟨hA, hC, hbest, by simp [TRStep.resultsOf, hbox]⟩
      · refine ⟨fun _ => ?_, fun h => by simp [TRStep.isStopWith] at h,
          fun h _ => by simp [TRStep.isCont] at h⟩
        push_neg at hA hC
        have ham : 0 < r2.approx_merit_improve := lt_of_lt_of_le h1 hA
        have hratio : p.improve_ratio_threshold ≤
            r2.exact_merit_improve / r2.approx_merit_improve := by
          have := hC.2
          rwa [hspec.2.1] at this
        have hem : 0 < r2.exact_merit_improve :=
          lt_of_lt_of_le (mul_pos h2 ham) ((le_div_iff ham).mp hratio)
        have himp : r2.exact_merit_improve = r.best_exact_merit - r2.new_exact_merit :=
          hspec.1
        have hnew : r2.new_exact_merit = r.best_exact_merit - r2.exact_merit_improve := by
          linarith
        have hgoal : (TRStep.stop .RUNNING
            (acceptTrustRegionStep p r2)).resultsOf.best_exact_merit = r2.new_exact_merit := rfl
        rw [hgoal, hnew]
        linarith

/-- A fixed small parameter set used by the concrete solver runs. -/
def testParams : SQPParameters :=
  { initial_trust_box_size := 1/2, min_trust_box_size := 1/8,
    trust_shrink_ratio := 1/2, trust_expand_ratio := 3/2,
    improve_ratio_threshold := 1/4, min_approx_improve := 1/100,
    min_approx_improve_frac := 1/1000, max_iterations := 100,
    max_merit_coeff_increases := 2, merit_coeff_increase_ratio := 10,
    initial_merit_error_coeff := 1, cnt_tolerance := 1/10000,
    max_qp_solver_failures := 2, inflate_constraints_individually := false }

/-- An oracle whose convex solver always fails. -/
def failOracle : SQPOracle := ⟨fun _ => none, fun _ => false⟩

/-- An oracle whose QP solves succeed but whose callbacks always return
false. -/
def callbackFalseOracle : SQPOracle :=
  ⟨fun _ => some { new_var_vals := [0], new_approx_costs := [0],
                   new_approx_constraint_violations := [1],
                   new_costs := [0], new_constraint_violations := [1],
                   callbacks_ok := false }, fun _ => false⟩

/-- An oracle whose QP solve promises a large convex improvement while the
exact merit gets worse, so the step is rejected. -/
def rejectOracle : SQPOracle :=
  ⟨fun _ => some { new_var_vals := [0], new_approx_costs := [0],
                   new_approx_constraint_violations := [],
                   new_costs := [20], new_constraint_violations := [],
                   callbacks_ok := true }, fun _ => false⟩

/-- An oracle whose QP solve yields a genuinely improving step. -/
def acceptOracle : SQPOracle :=
  ⟨fun _ => some { new_var_vals := [0], new_approx_costs := [5],
                   new_approx_constraint_violations := [],
                   new_costs := [6], new_constraint_violations := [],
                   callbacks_ok := true }, fun _ => false⟩

/-- A starting state whose best exact merit is 10. -/
def meritTenResults : SQPResults :=
  { best_exact_merit := 10, best_costs := [10], box_size := 1/2 }

/-- Witness for `trust_region_step_merit`: an accepted step at merit 10
(approx improvement 5, exact improvement 4, their quotient 4/5 above the
threshold 1/4) strictly decreases the best exact merit. -/
theorem trust_region_step_merit_witness :
    (0 < testParams.min_approx_improve ∧ 0 < testParams.improve_ratio_threshold ∧
      (trustRegionIterationBody testParams acceptOracle 0 meritTenResults).isStopWith
        .RUNNING = true) ∧
    (trustRegionIterationBody testParams acceptOracle 0 meritTenResults).resultsOf.best_exact_merit <
      meritTenResults.best_exact_merit :=
  ⟨⟨by norm_num [testParams], by norm_num [testParams], by with_unfolding_all decide⟩,
    (trust_region_step_merit testParams acceptOracle 0 meritTenResults
      (by norm_num [testParams]) (by norm_num [testParams])).1
      (by with_unfolding_all decide)⟩

lemma runTrustRegionLoop_guard_exit (p : SQPParameters) (o : SQPOracle) (fuel failures : ℕ)
    (status : SQPStatus) (r : SQPResults)
    (hguard : r.box_size < p.min_trust_box_size) :
    runTrustRegionLoop p o (fuel + 1) failures status r = some (status, r, []) := by
  simp only [runTrustRegionLoop]
  rw [if_pos hguard]

lemma runTrustRegionLoop_cont (p : SQPParameters) (o : SQPOracle) (fuel failures : ℕ)
    (status : SQPStatus) (r : SQPResults) (f2 : ℕ) (st2 : SQPStatus) (r2 : SQPResults)
    (hguard : ¬ (r.box_size < p.min_trust_box_size))
    (hbody : trustRegionIterationBody p o failures r = .cont f2 st2 r2) :
    runTrustRegionLoop p o (fuel + 1) failures status r =
      (runTrustRegionLoop p o fuel f2 st2 r2).map
        (fun t => (t.1, t.2.1, (r.box_size, r.accepted_steps) :: t.2.2)) := by
  simp only [runTrustRegionLoop]
  rw [if_neg hguard, hbody]
  show (match runTrustRegionLoop p o fuel f2 st2 r2 with
    | none => none
    | some (st3, r3, tr) => some (st3, r3, (r.box_size, r.accepted_steps) :: tr)) =
    (runTrustRegionLoop p o fuel f2 st2 r2).map
      (fun t => (t.1, t.2.1, (r.box_size, r.accepted_steps) :: t.2.2))
  cases runTrustRegionLoop p o fuel f2 st2 r2 with
  | none => rfl
  | some t =>
    obtain ⟨a, b, c⟩ := t
    rfl

lemma runTrustRegionLoop_stop (p : SQPParameters) (o : SQPOracle) (fuel failures : ℕ)
    (status : SQPStatus) (r : SQPResults) (st2 : SQPStatus) (r2 : SQPResults)
    (hguard : ¬ (r.box_size < p.min_trust_box_size))
    (hbody : trustRegionIterationBody p o failures r = .stop st2 r2) :
    runTrustRegionLoop p o (fuel + 1) failures status r =
      some (st2, r2, [(r.box_size, r.accepted_steps)]) := by
  simp only [runTrustRegionLoop]
  rw [if_neg hguard, hbody]

lemma qp_failure_ladder (p : SQPParameters) (o : SQPOracle)
    (hfail : ∀ n, o.qp n = none)
    (hs0 : 0 ≤ p.trust_shrink_ratio) (hs1 : p.trust_shrink_ratio ≤ 1)
    (hmin : 0 < p.min_trust_box_size) :
    ∀ (j : ℕ), 1 ≤ j → ∀ (fuel failures : ℕ),
      failures + j = p.max_qp_solver_failures → j + 1 ≤ fuel →
      ∀ (status : SQPStatus) (r : SQPResults),
      p.min_trust_box_size ≤ r.box_size * p.trust_shrink_ratio ^ (j - 1) →
      (runTrustRegionLoop p o fuel failures status r).map
          (fun t => (t.1, t.2.1.box_size, t.2.1.accepted_steps, t.2.2)) =
        some (.QP_SOLVER_ERROR, p.min_trust_box_size, r.accepted_steps,
          (List.range j).map
              (fun i => (r.box_size * p.trust_shrink_ratio ^ i, r.accepted_steps)) ++
            [(p.min_trust_box_size, r.accepted_steps)]) := by
  intro j
  induction j with
  | zero => omega
  | succ n ih =>
    intro _ fuel failures hmax hfuel status r hbox
    have hsn : (0 : ℚ) ≤ p.trust_shrink_ratio ^ n := pow_nonneg hs0 n
    have hb : 0 < r.box_size := by
      rcases le_or_lt r.box_size 0 with h | h
      · exfalso
        have h2 : r.box_size * p.trust_shrink_ratio ^ n ≤ 0 * p.trust_shrink_ratio ^ n :=
          mul_le_mul_of_nonneg_right h hsn
        simp only [Nat.add_sub_cancel] at hbox
        nlinarith
      · exact h
    have hguard : p.min_trust_box_size ≤ r.box_size := by
      have hsle : p.trust_shrink_ratio ^ n ≤ 1 := pow_le_one₀ hs0 hs1
      have h2 : r.box_size * p.trust_shrink_ratio ^ n ≤ r.box_size * 1 :=
        mul_le_mul_of_nonneg_left hsle (le_of_lt hb)
      simp only [Nat.add_sub_cancel] at hbox
      linarith
    have hguard' : ¬ (r.box_size < p.min_trust_box_size) := not_lt.mpr hguard
    obtain ⟨fuel1, rfl⟩ : ∃ f1, fuel = f1 + 1 := ⟨fuel - 1, by omega⟩
    rcases Nat.eq_zero_or_pos n with hn | hn
    · subst hn
      have hbody1 : trustRegionIterationBody p o failures r =
          .cont (failures + 1) .QP_SOLVER_ERROR
            { r with overall_iteration := r.overall_iteration + 1,
                     trust_region_iteration := r.trust_region_iteration + 1,
                     qp_attempt := r.qp_attempt + 1,
                     box_size := p.min_trust_box_size } := by
        rw [trustRegionIterationBody_fail p o failures r (hfail _)]
        rw [if_neg (by omega), if_pos (by omega)]
      rw [runTrustRegionLoop_cont p o fuel1 failures status r _ _ _ hguard' hbody1]
      obtain ⟨fuel2, rfl⟩ : ∃ f2, fuel1 = f2 + 1 := ⟨fuel1 - 1, by omega⟩
      rw [runTrustRegionLoop_stop p o fuel2 (failures + 1) .QP_SOLVER_ERROR _ _ _
        (by simp) (by
          rw [trustRegionIterationBody_fail p o (failures + 1) _ (hfail _)]
          rw [if_neg (by omega), if_neg (by omega)])]
      simp [pow_zero, show List.range 1 = [0] from rfl]
    · have hcond : failures + 1 < p.max_qp_solver_failures := by omega
      have hbody1 : trustRegionIterationBody p o failures r =
          .cont (failures + 1) .QP_SOLVER_ERROR
            { r with overall_iteration := r.overall_iteration + 1,
                     trust_region_iteration := r.trust_region_iteration + 1,
                     qp_attempt := r.qp_attempt + 1,
                     box_size := r.box_size * p.trust_shrink_ratio } := by
        rw [trustRegionIterationBody_fail p o failures r (hfail _)]
        rw [if_pos hcond]
      rw [runTrustRegionLoop_cont p o fuel1 failures status r _ _ _ hguard' hbody1]
      have hfuel1 : n + 1 ≤ fuel1 := by omega
      have hmax1 : failures + 1 + n = p.max_qp_solver_failures := by omega
      have ihres := ih hn fuel1 (failures + 1) hmax1 hfuel1 .QP_SOLVER_ERROR
        { r with overall_iteration := r.overall_iteration + 1,
                 trust_region_iteration := r.trust_region_iteration + 1,
                 qp_attempt := r.qp_attempt + 1,
                 box_size := r.box_size * p.trust_shrink_ratio }
        (by
          show p.min_trust_box_size ≤
            r.box_size * p.trust_shrink_ratio * p.trust_shrink_ratio ^ (n - 1)
          have hexp : n - 1 + 1 = n := by omega
          have hpow : r.box_size * p.trust_shrink_ratio * p.trust_shrink_ratio ^ (n - 1) =
              r.box_size * p.trust_shrink_ratio ^ n := by
            rw [mul_assoc, ← pow_succ', hexp]
          rw [hpow]
          exact hbox)
      obtain ⟨t, ht, htup⟩ := Option.map_eq_some'.mp ihres
      rw [ht]
      simp at htup
      obtain ⟨h1, h2, h3, h4⟩ := htup
      simp only [Option.map_some', Option.some.injEq, Prod.mk.injEq]
      refine ⟨h1, h2, ?_, ?_⟩
      · exact h3
      · rw [h4, List.range_succ_eq_map]
        simp only [List.map_cons, List.map_map, pow_zero, mul_one, List.cons_append,
          List.cons.injEq]
        refine ⟨by trivial, ?_⟩
        congr 1
        apply List.map_congr_left
        intro i _
        simp only [Function.comp_apply]
        rw [mul_assoc, ← pow_succ']

/-- C1 (amended): with a persistently failing convex QP solver the
trust-region loop shrinks the box by `trust_shrink_ratio` on each failure
while the failure count is below `max_qp_solver_failures`, clamps the box to
`min_trust_box_size` on the `max_qp_solver_failures`-th failure, and on one
further failure returns from the trust-region loop with status
`QP_SOLVER_ERROR` and the box still at `min_trust_box_size` (the enclosing
`solve` does not terminate with that status; see the counterexample). -/
theorem qp_solver_failure_ladder (p : SQPParameters) (o : SQPOracle)
    (fuel : ℕ) (status : SQPStatus) (r : SQPResults)
    (hfail : ∀ n, o.qp n = none)
    (hs0 : 0 ≤ p.trust_shrink_ratio) (hs1 : p.trust_shrink_ratio ≤ 1)
    (hmin : 0 < p.min_trust_box_size)
    (hm1 : 1 ≤ p.max_qp_solver_failures)
    (hbox : p.min_trust_box_size ≤
      r.box_size * p.trust_shrink_ratio ^ (p.max_qp_solver_failures - 1))
    (hfuel : p.max_qp_solver_failures + 1 ≤ fuel) :
    (runTrustRegionLoop p o fuel 0 status r).map
        (fun t => (t.1, t.2.1.box_size, t.2.1.accepted_steps, t.2.2)) =
      some (.QP_SOLVER_ERROR, p.min_trust_box_size, r.accepted_steps,
        (List.range p.max_qp_solver_failures).map
            (fun i => (r.box_size * p.trust_shrink_ratio ^ i, r.accepted_steps)) ++
          [(p.min_trust_box_size, r.accepted_steps)]) :=
  qp_failure_ladder p o hfail hs0 hs1 hmin p.max_qp_solver_failures hm1 fuel 0
    (by omega) hfuel status r hbox

/-- Witness for `qp_solver_failure_ladder`: `max_qp_solver_failures = 2`
failures shrink the box `1/2 → 1/4 → clamp 1/8`, and the third failure exits
the loop with `QP_SOLVER_ERROR`. -/
theorem qp_solver_failure_ladder_witness :
    ((∀ n, failOracle.qp n = none) ∧
      (0 : ℚ) ≤ testParams.trust_shrink_ratio ∧
      testParams.trust_shrink_ratio ≤ 1 ∧
      (0 : ℚ) < testParams.min_trust_box_size ∧
      1 ≤ testParams.max_qp_solver_failures ∧
      testParams.min_trust_box_size ≤
        meritTenResults.box_size *
          testParams.trust_shrink_ratio ^ (testParams.max_qp_solver_failures - 1) ∧
      testParams.max_qp_solver_failures + 1 ≤ 4) ∧
    (runTrustRegionLoop testParams failOracle 4 0 .RUNNING meritTenResults).map
        (fun t => (t.1, t.2.1.box_size, t.2.1.accepted_steps, t.2.2)) =
      some (.QP_SOLVER_ERROR, testParams.min_trust_box_size,
        meritTenResults.accepted_steps,
        (List.range testParams.max_qp_solver_failures).map
            (fun i => (meritTenResults.box_size * testParams.trust_shrink_ratio ^ i,
              meritTenResults.accepted_steps)) ++
          [(testParams.min_trust_box_size, meritTenResults.accepted_steps)]) :=
  ⟨⟨fun _ => rfl, by norm_num [testParams], by norm_num [testParams],
      by norm_num [testParams], by decide, by with_unfolding_all decide, by decide⟩,
    qp_solver_failure_ladder testParams failOracle 4 .RUNNING meritTenResults
      (fun _ => rfl) (by norm_num [testParams]) (by norm_num [testParams])
      (by norm_num [testParams]) (by decide) (by with_unfolding_all decide) (by decide)⟩

/-- Counterexample to C1 as stated: with a convex solver that fails on every
attempt, `solve` does not terminate with `QP_SOLVER_ERROR`: the run performs
8 QP attempts across the penalty iterations and returns
`PENALTY_ITERATION_LIMIT`. -/
theorem qp_solver_error_not_terminal_counterexample :
    (solve testParams failOracle 20 [0] [5] [1]).map (fun t => (t.1, t.2.1.qp_attempt)) =
      some (.PENALTY_ITERATION_LIMIT, 8) ∧
    SQPStatus.PENALTY_ITERATION_LIMIT ≠ SQPStatus.QP_SOLVER_ERROR :=
  ⟨by with_unfolding_all rfl, by decide⟩

/-- C2 (amended): when a callback returns false after a successful QP solve,
`solveQPProblem` returns `CALLBACK_STOPPED`, but the trust-region loop treats
the status like a convex-solver failure: while the failure count stays below
`max_qp_solver_failures` the iteration continues the loop with a box shrunk
by `trust_shrink_ratio` and an unchanged best iterate, instead of stopping. -/
theorem callback_stop_shrinks_and_retries (p : SQPParameters) (o : SQPOracle)
    (failures : ℕ) (r : SQPResults) (a : QPSolveSuccess)
    (ho : o.qp r.qp_attempt = some a) (hcb : a.callbacks_ok = false)
    (hf : failures + 1 < p.max_qp_solver_failures) :
    (solveQPProblem o r).1 = .CALLBACK_STOPPED ∧
    (trustRegionIterationBody p o failures r).isCont = true ∧
    (trustRegionIterationBody p o failures r).statusOf = .CALLBACK_STOPPED ∧
    (trustRegionIterationBody p o failures r).resultsOf.box_size =
      r.box_size * p.trust_shrink_ratio ∧
    (trustRegionIterationBody p o failures r).resultsOf.best_var_vals = r.best_var_vals ∧
    (trustRegionIterationBody p o failures r).resultsOf.best_exact_merit =
      r.best_exact_merit := by
  have hspec := qpSuccessResults_spec
    { r with overall_iteration := r.overall_iteration + 1,
             trust_region_iteration := r.trust_region_iteration + 1 } a
  refine ⟨?_, ?_⟩
  · rw [solveQPProblem_success o r a ho, hcb]
    simp
  · rw [trustRegionIterationBody_success p o failures r a ho, hcb]
    rw [if_neg (by simp)]
    rw [if_pos hf]
    refine ⟨rfl, rfl, ?_, ?_, ?_⟩
    · simp [TRStep.resultsOf, hspec.2.2.2.1]
    · simp [TRStep.resultsOf, hspec.2.2.2.2.2.2.2]
    · simp [TRStep.resultsOf, hspec.2.2.1]

/-- Witness for `callback_stop_shrinks_and_retries` with the callback-false
oracle at failure count 0. -/
theorem callback_stop_shrinks_and_retries_witness :
    (callbackFalseOracle.qp meritTenResults.qp_attempt =
        some { new_var_vals := [0], new_approx_costs := [0],
               new_approx_constraint_violations := [1],
               new_costs := [0], new_constraint_violations := [1],
               callbacks_ok := false } ∧
      0 + 1 < testParams.max_qp_solver_failures) ∧
    ((solveQPProblem callbackFalseOracle meritTenResults).1 = .CALLBACK_STOPPED ∧
      (trustRegionIterationBody testParams callbackFalseOracle 0 meritTenResults).isCont =
        true ∧
      (trustRegionIterationBody testParams callbackFalseOracle 0 meritTenResults).statusOf =
        .CALLBACK_STOPPED ∧
      (trustRegionIterationBody testParams callbackFalseOracle 0
          meritTenResults).resultsOf.box_size =
        meritTenResults.box_size * testParams.trust_shrink_ratio ∧
      (trustRegionIterationBody testParams callbackFalseOracle 0
          meritTenResults).resultsOf.best_var_vals = meritTenResults.best_var_vals ∧
      (trustRegionIterationBody testParams callbackFalseOracle 0
          meritTenResults).resultsOf.best_exact_merit = meritTenResults.best_exact_merit) :=
  ⟨⟨rfl, by decide⟩,
    callback_stop_shrinks_and_retries testParams callbackFalseOracle 0 meritTenResults _
      rfl rfl (by decide)⟩

/-- Counterexample to C2 as stated: with every callback returning false the
solver does not stop after the first QP solve: it performs 8 QP solves in
total and `solve` returns `PENALTY_ITERATION_LIMIT`, not
`CALLBACK_STOPPED`. -/
theorem callback_stop_counterexample :
    (solve testParams callbackFalseOracle 20 [0] [5] [1]).map
        (fun t => (t.1, t.2.1.qp_attempt)) =
      some (.PENALTY_ITERATION_LIMIT, 8) ∧
    SQPStatus.PENALTY_ITERATION_LIMIT ≠ SQPStatus.CALLBACK_STOPPED ∧ 1 < 8 :=
  ⟨by with_unfolding_all rfl, by decide, by decide⟩

/-- Counterexample to C3 as stated: a rejected step (exact merit got worse)
continues the trust-region loop with status `RUNNING` and an approximate
merit improvement of 10, far above `min_approx_improve = 1/100`; the status
does not become `NLP_CONVERGED`. -/
theorem trust_region_step_merit_counterexample :
    (trustRegionIterationBody testParams rejectOracle 0 meritTenResults).isCont = true ∧
    (trustRegionIterationBody testParams rejectOracle 0 meritTenResults).statusOf =
      .RUNNING ∧
    testParams.min_approx_improve <
      (trustRegionIterationBody testParams rejectOracle 0
        meritTenResults).resultsOf.approx_merit_improve :=
  ⟨by with_unfolding_all decide, by with_unfolding_all decide, by with_unfolding_all decide⟩

/-! ### A constraint-free problem always converges (claim C9) -/

lemma trustRegionIterationBody_empty_cnt (p : SQPParameters) (o : SQPOracle) (f : ℕ)
    (r : SQPResults)
    (horacle : ∀ n a, o.qp n = some a → a.new_constraint_violations = [])
    (hP : r.best_constraint_violations = []) :
    (trustRegionIterationBody p o f r).resultsOf.best_constraint_violations = [] := by
  cases hqp : o.qp r.qp_attempt with
  | none =>
    rw [trustRegionIterationBody_fail p o f r hqp]
    split_ifs <;> simp [TRStep.resultsOf, hP]
  | some a =>
    rw [trustRegionIterationBody_success p o f r a hqp]
    have ha := horacle _ _ hqp
    dsimp only
    split_ifs <;>
      simp [TRStep.resultsOf, acceptTrustRegionStep, qpSuccessResults, hP, ha]

lemma runTrustRegionLoop_empty_cnt (p : SQPParameters) (o : SQPOracle)
    (horacle : ∀ n a, o.qp n = some a → a.new_constraint_violations = []) :
    ∀ (fuel failures : ℕ) (status : SQPStatus) (r : SQPResults)
      (st2 : SQPStatus) (r2 : SQPResults) (tr : List (ℚ × ℕ)),
      r.best_constraint_violations = [] →
      runTrustRegionLoop p o fuel failures status r = some (st2, r2, tr) →
      r2.best_constraint_violations = [] := by
  intro fuel
  induction fuel with
  | zero => intro failures status r st2 r2 tr _ hrun; simp [runTrustRegionLoop] at hrun
  | succ fuel ih =>
    intro failures status r st2 r2 tr hP hrun
    by_cases hg : r.box_size < p.min_trust_box_size
    · rw [runTrustRegionLoop_guard_exit p o fuel failures status r hg] at hrun
      simp only [Option.some.injEq, Prod.mk.injEq] at hrun
      exact hrun.2.1 ▸ hP
    · cases hbody : trustRegionIterationBody p o failures r with
      | stop st3 r3 =>
        rw [runTrustRegionLoop_stop p o fuel failures status r _ _ hg hbody] at hrun
        simp only [Option.some.injEq, Prod.mk.injEq] at hrun
        have h3 : r3.best_constraint_violations = [] := by
          have h := trustRegionIterationBody_empty_cnt p o failures r horacle hP
          rw [hbody] at h
          exact h
        exact hrun.2.1 ▸ h3
      | cont f3 st3 r3 =>
        rw [runTrustRegionLoop_cont p o fuel failures status r _ _ _ hg hbody] at hrun
        obtain ⟨t, ht, htup⟩ := Option.map_eq_some'.mp hrun
        obtain ⟨ta, tb, tc⟩ := t
        have htup2 : (ta, tb, (r.box_size, r.accepted_steps) :: tc) = (st2, r2, tr) := htup
        simp only [Prod.mk.injEq] at htup2
        have hP3 : r3.best_constraint_violations = [] := by
          have h := trustRegionIterationBody_empty_cnt p o failures r horacle hP
          rw [hbody] at h
          exact h
        exact htup2.2.1 ▸ ih f3 st3 r3 ta tb tc hP3 ht

lemma stepSQPSolver_empty_cnt (p : SQPParameters) (o : SQPOracle) (fuel : ℕ)
    (status : SQPStatus) (r : SQPResults) (done : Bool) (st2 : SQPStatus)
    (r2 : SQPResults) (tr : List (ℚ × ℕ))
    (horacle : ∀ n a, o.qp n = some a → a.new_constraint_violations = [])
    (hP : r.best_constraint_violations = [])
    (hstep : stepSQPSolver p o fuel status r = some (done, st2, r2, tr)) :
    r2.best_constraint_violations = [] := by
  simp only [stepSQPSolver] at hstep
  cases hrun : runTrustRegionLoop p o fuel 0 status
      { r with convexify_iteration := r.convexify_iteration + 1,
               trust_region_iteration := 0 } with
  | none => rw [hrun] at hstep; simp at hstep
  | some t =>
    obtain ⟨st3, r3, tr3⟩ := t
    rw [hrun] at hstep
    have h3 : r3.best_constraint_violations = [] :=
      runTrustRegionLoop_empty_cnt p o horacle fuel 0 status _ st3 r3 tr3 (by exact hP) hrun
    simp only [] at hstep
    split_ifs at hstep <;>
      · simp only [Option.some.injEq, Prod.mk.injEq] at hstep
        exact hstep.2.2.1 ▸ h3

lemma convexificationLoop_empty_cnt (p : SQPParameters) (o : SQPOracle) (fuel : ℕ)
    (horacle : ∀ n a, o.qp n = some a → a.new_constraint_violations = []) :
    ∀ (n : ℕ) (status : SQPStatus) (r : SQPResults)
      (st2 : SQPStatus) (r2 : SQPResults) (tr : List (ℚ × ℕ)),
      r.best_constraint_violations = [] →
      convexificationLoop p o fuel n status r = some (st2, r2, tr) →
      r2.best_constraint_violations = [] := by
  intro n
  induction n with
  | zero =>
    intro status r st2 r2 tr hP hrun
    simp only [convexificationLoop, Option.some.injEq, Prod.mk.injEq] at hrun
    exact hrun.2.1 ▸ hP
  | succ n ih =>
    intro status r st2 r2 tr hP hrun
    simp only [convexificationLoop] at hrun
    split_ifs at hrun with ht hi
    · simp only [Option.some.injEq, Prod.mk.injEq] at hrun
      exact hrun.2.1 ▸ hP
    · simp only [Option.some.injEq, Prod.mk.injEq] at hrun
      exact hrun.2.1 ▸ hP
    · cases hstep : stepSQPSolver p o fuel status
          { r with time_check := r.time_check + 1 } with
      | none => rw [hstep] at hrun; simp at hrun
      | some q =>
        obtain ⟨done, st3, r3, tr3⟩ := q
        rw [hstep] at hrun
        have h3 : r3.best_constraint_violations = [] :=
          stepSQPSolver_empty_cnt p o fuel status _ done st3 r3 tr3 horacle (by exact hP) hstep
        simp only [] at hrun
        by_cases hdone : done = true
        · rw [if_pos hdone] at hrun
          simp only [Option.some.injEq, Prod.mk.injEq] at hrun
          exact hrun.2.1 ▸ h3
        · rw [if_neg hdone] at hrun
          cases hrec : convexificationLoop p o fuel n st3 r3 with
          | none => rw [hrec] at hrun; simp at hrun
          | some q2 =>
            obtain ⟨st4, r4, tr4⟩ := q2
            rw [hrec] at hrun
            simp only [Option.some.injEq, Prod.mk.injEq] at hrun
            exact hrun.2.1 ▸ ih st3 r3 st4 r4 tr4 h3 hrec

lemma penaltyLoop_empty_status (p : SQPParameters) (o : SQPOracle) (fuel iter n : ℕ)
    (r : SQPResults) (st2 : SQPStatus) (r2 : SQPResults) (tr : List (ℚ × ℕ))
    (horacle : ∀ m a, o.qp m = some a → a.new_constraint_violations = [])
    (hn : 1 ≤ n) (hP : r.best_constraint_violations = [])
    (h : penaltyLoop p o fuel iter n r = some (st2, r2, tr)) :
    st2 = .NLP_CONVERGED := by
  obtain ⟨m, rfl⟩ : ∃ m, n = m + 1 := ⟨n - 1, by omega⟩
  cases hconv : convexificationLoop p o fuel 99 .RUNNING
      { r with penalty_iteration := iter, convexify_iteration := 0 } with
  | none => simp [penaltyLoop, hconv] at h
  | some q =>
    obtain ⟨st3, r3, tr3⟩ := q
    have h3 : r3.best_constraint_violations = [] :=
      convexificationLoop_empty_cnt p o fuel horacle 99 .RUNNING _ st3 r3 tr3 (by exact hP) hconv
    have hv : verifySQPSolverConvergence p r3 = true := by
      simp [verifySQPSolverConvergence, h3]
    simp only [penaltyLoop, hconv, hv, if_true, Option.some.injEq, Prod.mk.injEq] at h
    exact h.1.symm

/-- C9: with zero NLP constraints the post-convexification convergence check
always succeeds, so `solve` returns `NLP_CONVERGED` whenever it returns at
all; in particular `PENALTY_ITERATION_LIMIT` is unreachable.  (`horacle`
records that the QP problem evaluates an empty violation vector on a
constraint-free problem.) -/
theorem zero_constraints_nlp_converged (p : SQPParameters) (o : SQPOracle) (fuel : ℕ)
    (x0 init_costs : List ℚ) (st : SQPStatus)
    (hmax : 1 ≤ p.max_merit_coeff_increases)
    (horacle : ∀ n a, o.qp n = some a → a.new_constraint_violations = [])
    (hsolve : (solve p o fuel x0 init_costs []).map (fun t => t.1) = some st) :
    st = .NLP_CONVERGED ∧ st ≠ .PENALTY_ITERATION_LIMIT ∧
      (∀ r : SQPResults, r.best_constraint_violations = [] →
        verifySQPSolverConvergence p r = true) := by
  have hverify : ∀ r : SQPResults, r.best_constraint_violations = [] →
      verifySQPSolverConvergence p r = true := by
    intro r hr
    simp [verifySQPSolverConvergence, hr]
  obtain ⟨t, ht, hst⟩ := Option.map_eq_some'.mp hsolve
  obtain ⟨st1, r1, tr1⟩ := t
  cases hpen : penaltyLoop p o fuel 0 p.max_merit_coeff_increases
      { best_var_vals := x0,
        best_costs := init_costs,
        best_constraint_violations := [],
        merit_error_coeffs := [],
        box_size := p.initial_trust_box_size,
        best_exact_merit := init_costs.sum + dotProd [] [] } with
  | none => simp [solve, hpen] at ht
  | some q =>
    obtain ⟨st3, r3, tr3⟩ := q
    have hst3 : st3 = .NLP_CONVERGED :=
      penaltyLoop_empty_status p o fuel 0 p.max_merit_coeff_increases _ st3 r3 tr3
        horacle hmax (by exact rfl) hpen
    subst hst3
    simp [solve, hpen] at ht
    have hstEq : st = SQPStatus.NLP_CONVERGED := by
      rw [← hst]
      exact ht.1.symm
    refine ⟨hstEq, by rw [hstEq]; simp, hverify⟩

/-- Witness for `zero_constraints_nlp_converged`: the always-failing oracle
on a constraint-free problem ends with `NLP_CONVERGED`. -/
theorem zero_constraints_nlp_converged_witness :
    (1 ≤ testParams.max_merit_coeff_increases ∧
      (∀ n a, failOracle.qp n = some a → a.new_constraint_violations = []) ∧
      (solve testParams failOracle 20 [0] [7] []).map (fun t => t.1) =
        some SQPStatus.NLP_CONVERGED) ∧
    (SQPStatus.NLP_CONVERGED = SQPStatus.NLP_CONVERGED ∧
      SQPStatus.NLP_CONVERGED ≠ SQPStatus.PENALTY_ITERATION_LIMIT) :=
  ⟨⟨by decide, fun _ _ h => Option.noConfusion h, by with_unfolding_all rfl⟩,
    (zero_constraints_nlp_converged testParams failOracle 20 [0] [7]
        SQPStatus.NLP_CONVERGED (by decide) (fun _ _ h => Option.noConfusion h)
        (by with_unfolding_all rfl)).1,
    (zero_constraints_nlp_converged testParams failOracle 20 [0] [7]
        SQPStatus.NLP_CONVERGED (by decide) (fun _ _ h => Option.noConfusion h)
        (by with_unfolding_all rfl)).2.1⟩

/-! ### Trust-region box-size bounds along the run (claim C4) -/

/-- The box-size invariant of the SQP run: the box is non-negative and at most
`initial_trust_box_size · trust_expand_ratio ^ accepted_steps`. -/
def BoxInv (p : SQPParameters) (r : SQPResults) : Prop :=
  0 ≤ r.box_size ∧
    r.box_size ≤ p.initial_trust_box_size * p.trust_expand_ratio ^ r.accepted_steps

lemma one_le_pow_of_one_le_q (x : ℚ) (hx : 1 ≤ x) (n : ℕ) : 1 ≤ x ^ n := by
  induction n with
  | zero => simp
  | succ n ih => rw [pow_succ]; nlinarith

lemma trustRegionIterationBody_box (p : SQPParameters) (o : SQPOracle) (f : ℕ)
    (r : SQPResults)
    (h1 : 0 ≤ p.trust_shrink_ratio) (h2 : p.trust_shrink_ratio ≤ 1)
    (h3 : 1 ≤ p.trust_expand_ratio) (h4 : 0 < p.min_trust_box_size)
    (h5 : p.min_trust_box_size ≤ p.initial_trust_box_size)
    (hinv : BoxInv p r) :
    BoxInv p (trustRegionIterationBody p o f r).resultsOf := by
  obtain ⟨hb0, hbU⟩ := hinv
  have hinit0 : (0:ℚ) ≤ p.initial_trust_box_size := le_trans h4.le h5
  have hexp0 : (0:ℚ) ≤ p.trust_expand_ratio := le_trans zero_le_one h3
  have hmin : ∀ k : ℕ,
      p.min_trust_box_size ≤ p.initial_trust_box_size * p.trust_expand_ratio ^ k :=
    fun k => le_trans h5
      (le_mul_of_one_le_right hinit0 (one_le_pow_of_one_le_q _ h3 k))
  cases hqp : o.qp r.qp_attempt with
  | none =>
    rw [trustRegionIterationBody_fail p o f r hqp]
    split_ifs
    · exact ⟨mul_nonneg hb0 h1, le_trans (mul_le_of_le_one_right hb0 h2) hbU⟩
    · exact ⟨h4.le, hmin _⟩
    · exact ⟨hb0, hbU⟩
  | some a =>
    rw [trustRegionIterationBody_success p o f r a hqp]
    have hbox : (qpSuccessResults
        { r with overall_iteration := r.overall_iteration + 1,
                 trust_region_iteration := r.trust_region_iteration + 1 } a).box_size =
        r.box_size := (qpSuccessResults_spec _ a).2.2.2.1
    have hacc : (qpSuccessResults
        { r with overall_iteration := r.overall_iteration + 1,
                 trust_region_iteration := r.trust_region_iteration + 1 } a).accepted_steps =
        r.accepted_steps := (qpSuccessResults_spec _ a).2.2.2.2.1
    dsimp only
    revert hbox hacc
    generalize qpSuccessResults
        { r with overall_iteration := r.overall_iteration + 1,
                 trust_region_iteration := r.trust_region_iteration + 1 } a = r2
    intro hbox hacc
    have hb2 : 0 ≤ r2.box_size := by rw [hbox]; exact hb0
    have hU2 : r2.box_size ≤
        p.initial_trust_box_size * p.trust_expand_ratio ^ r2.accepted_steps := by
      rw [hbox, hacc]; exact hbU
    split_ifs
    · exact ⟨hb2, hU2⟩
    · exact ⟨hb2, hU2⟩
    · exact ⟨mul_nonneg hb2 h1, le_trans (mul_le_of_le_one_right hb2 h2) hU2⟩
    · refine ⟨mul_nonneg hb2 hexp0, ?_⟩
      have hstep : r2.box_size * p.trust_expand_ratio ≤
          p.initial_trust_box_size * p.trust_expand_ratio ^ r2.accepted_steps *
            p.trust_expand_ratio :=
        mul_le_mul_of_nonneg_right hU2 hexp0
      have heq : p.initial_trust_box_size * p.trust_expand_ratio ^ (r2.accepted_steps + 1) =
          p.initial_trust_box_size * p.trust_expand_ratio ^ r2.accepted_steps *
            p.trust_expand_ratio := by
        rw [pow_succ, mul_assoc]
      exact le_of_le_of_eq hstep heq.symm
    · exact ⟨mul_nonneg hb2 h1, le_trans (mul_le_of_le_one_right hb2 h2) hU2⟩
    · exact ⟨h4.le, hmin _⟩
    · exact ⟨hb2, hU2⟩

lemma runTrustRegionLoop_box (p : SQPParameters) (o : SQPOracle)
    (h1 : 0 ≤ p.trust_shrink_ratio) (h2 : p.trust_shrink_ratio ≤ 1)
    (h3 : 1 ≤ p.trust_expand_ratio) (h4 : 0 < p.min_trust_box_size)
    (h5 : p.min_trust_box_size ≤ p.initial_trust_box_size) :
    ∀ (fuel failures : ℕ) (status : SQPStatus) (r : SQPResults)
      (st2 : SQPStatus) (r2 : SQPResults) (tr : List (ℚ × ℕ)),
      BoxInv p r →
      runTrustRegionLoop p o fuel failures status r = some (st2, r2, tr) →
      BoxInv p r2 ∧ ∀ e ∈ tr, p.min_trust_box_size ≤ e.1 ∧
        e.1 ≤ p.initial_trust_box_size * p.trust_expand_ratio ^ e.2 := by
  intro fuel
  induction fuel with
  | zero => intro failures status r st2 r2 tr _ hrun; simp [runTrustRegionLoop] at hrun
  | succ fuel ih =>
    intro failures status r st2 r2 tr hP hrun
    by_cases hg : r.box_size < p.min_trust_box_size
    · rw [runTrustRegionLoop_guard_exit p o fuel failures status r hg] at hrun
      simp only [Option.some.injEq, Prod.mk.injEq] at hrun
      refine ⟨hrun.2.1 ▸ hP, ?_⟩
      intro e he
      rw [← hrun.2.2] at he
      simp at he
    · cases hbody : trustRegionIterationBody p o failures r with
      | stop st3 r3 =>
        rw [runTrustRegionLoop_stop p o fuel failures status r _ _ hg hbody] at hrun
        simp only [Option.some.injEq, Prod.mk.injEq] at hrun
        have hinv3 : BoxInv p r3 := by
          have h := trustRegionIterationBody_box p o failures r h1 h2 h3 h4 h5 hP
          rw [hbody] at h
          exact h
        refine ⟨hrun.2.1 ▸ hinv3, ?_⟩
        intro e he
        rw [← hrun.2.2] at he
        simp only [List.mem_singleton] at he
        subst he
        exact ⟨not_lt.mp hg, hP.2⟩
      | cont f3 st3 r3 =>
        rw [runTrustRegionLoop_cont p o fuel failures status r _ _ _ hg hbody] at hrun
        obtain ⟨t, ht, htup⟩ := Option.map_eq_some'.mp hrun
        obtain ⟨ta, tb, tc⟩ := t
        have htup2 : (ta, tb, (r.box_size, r.accepted_steps) :: tc) = (st2, r2, tr) := htup
        simp only [Prod.mk.injEq] at htup2
        have hP3 : BoxInv p r3 := by
          have h := trustRegionIterationBody_box p o failures r h1 h2 h3 h4 h5 hP
          rw [hbody] at h
          exact h
        obtain ⟨hinv2, htrb⟩ := ih f3 st3 r3 ta tb tc hP3 ht
        refine ⟨htup2.2.1 ▸ hinv2, ?_⟩
        intro e he
        rw [← htup2.2.2] at he
        rcases List.mem_cons.mp he with he | he
        · subst he
          exact ⟨not_lt.mp hg, hP.2⟩
        · exact htrb e he

lemma stepSQPSolver_box (p : SQPParameters) (o : SQPOracle) (fuel : ℕ)
    (status : SQPStatus) (r : SQPResults) (done : Bool) (st2 : SQPStatus)
    (r2 : SQPResults) (tr : List (ℚ × ℕ))
    (h1 : 0 ≤ p.trust_shrink_ratio) (h2 : p.trust_shrink_ratio ≤ 1)
    (h3 : 1 ≤ p.trust_expand_ratio) (h4 : 0 < p.min_trust_box_size)
    (h5 : p.min_trust_box_size ≤ p.initial_trust_box_size)
    (hP : BoxInv p r)
    (hstep : stepSQPSolver p o fuel status r = some (done, st2, r2, tr)) :
    BoxInv p r2 ∧ ∀ e ∈ tr, p.min_trust_box_size ≤ e.1 ∧
      e.1 ≤ p.initial_trust_box_size * p.trust_expand_ratio ^ e.2 := by
  simp only [stepSQPSolver] at hstep
  cases hrun : runTrustRegionLoop p o fuel 0 status
      { r with convexify_iteration := r.convexify_iteration + 1,
               trust_region_iteration := 0 } with
  | none => rw [hrun] at hstep; simp at hstep
  | some t =>
    obtain ⟨st3, r3, tr3⟩ := t
    rw [hrun] at hstep
    obtain ⟨hinv3, htr3⟩ :=
      runTrustRegionLoop_box p o h1 h2 h3 h4 h5 fuel 0 status _ st3 r3 tr3
        (by exact hP) hrun
    simp only [] at hstep
    split_ifs at hstep <;>
      · simp only [Option.some.injEq, Prod.mk.injEq] at hstep
        exact ⟨hstep.2.2.1 ▸ hinv3, hstep.2.2.2 ▸ htr3⟩

lemma convexificationLoop_box (p : SQPParameters) (o : SQPOracle) (fuel : ℕ)
    (h1 : 0 ≤ p.trust_shrink_ratio) (h2 : p.trust_shrink_ratio ≤ 1)
    (h3 : 1 ≤ p.trust_expand_ratio) (h4 : 0 < p.min_trust_box_size)
    (h5 : p.min_trust_box_size ≤ p.initial_trust_box_size) :
    ∀ (n : ℕ) (status : SQPStatus) (r : SQPResults)
      (st2 : SQPStatus) (r2 : SQPResults) (tr : List (ℚ × ℕ)),
      BoxInv p r →
      convexificationLoop p o fuel n status r = some (st2, r2, tr) →
      BoxInv p r2 ∧ ∀ e ∈ tr, p.min_trust_box_size ≤ e.1 ∧
        e.1 ≤ p.initial_trust_box_size * p.trust_expand_ratio ^ e.2 := by
  intro n
  induction n with
  | zero =>
    intro status r st2 r2 tr hP hrun
    simp only [convexificationLoop, Option.some.injEq, Prod.mk.injEq] at hrun
    refine ⟨hrun.2.1 ▸ hP, ?_⟩
    intro e he
    rw [← hrun.2.2] at he
    simp at he
  | succ n ih =>
    intro status r st2 r2 tr hP hrun
    simp only [convexificationLoop] at hrun
    split_ifs at hrun with htl hil
    · simp only [Option.some.injEq, Prod.mk.injEq] at hrun
      refine ⟨?_, ?_⟩
      · rw [← hrun.2.1]; exact hP
      · intro e he
        rw [← hrun.2.2] at he
        simp at he
    · simp only [Option.some.injEq, Prod.mk.injEq] at hrun
      refine ⟨?_, ?_⟩
      · rw [← hrun.2.1]; exact hP
      · intro e he
        rw [← hrun.2.2] at he
        simp at he
    · cases hstep : stepSQPSolver p o fuel status
          { r with time_check := r.time_check + 1 } with
      | none => rw [hstep] at hrun; simp at hrun
      | some q =>
        obtain ⟨done, st3, r3, tr3⟩ := q
        rw [hstep] at hrun
        obtain ⟨hinv3, htr3⟩ :=
          stepSQPSolver_box p o fuel status _ done st3 r3 tr3 h1 h2 h3 h4 h5
            (by exact hP) hstep
        simp only [] at hrun
        by_cases hdone : done = true
        · rw [if_pos hdone] at hrun
          simp only [Option.some.injEq, Prod.mk.injEq] at hrun
          exact ⟨hrun.2.1 ▸ hinv3, hrun.2.2 ▸ htr3⟩
        · rw [if_neg hdone] at hrun
          cases hrec : convexificationLoop p o fuel n st3 r3 with
          | none => rw [hrec] at hrun; simp at hrun
          | some q2 =>
            obtain ⟨st4, r4, tr4⟩ := q2
            rw [hrec] at hrun
            obtain ⟨hinv4, htr4⟩ := ih st3 r3 st4 r4 tr4 hinv3 hrec
            simp only [Option.some.injEq, Prod.mk.injEq] at hrun
            refine ⟨hrun.2.1 ▸ hinv4, ?_⟩
            intro e he
            rw [← hrun.2.2] at he
            rcases List.mem_append.mp he with he | he
            · exact htr3 e he
            · exact htr4 e he

lemma adjustPenalty_box (p : SQPParameters) (r : SQPResults)
    (h3 : 1 ≤ p.trust_expand_ratio) (h4 : 0 < p.min_trust_box_size)
    (h5 : p.min_trust_box_size ≤ p.initial_trust_box_size)
    (h6 : p.min_trust_box_size / p.trust_shrink_ratio * (3 / 2) ≤
      p.initial_trust_box_size)
    (hP : BoxInv p r) :
    BoxInv p (adjustPenalty p r) := by
  have hinit0 : (0:ℚ) ≤ p.initial_trust_box_size := le_trans h4.le h5
  refine ⟨le_trans hP.1 (le_max_left _ _), ?_⟩
  exact max_le hP.2
    (le_trans h6 (le_mul_of_one_le_right hinit0 (one_le_pow_of_one_le_q _ h3 _)))

lemma penaltyLoop_box (p : SQPParameters) (o : SQPOracle) (fuel : ℕ)
    (h1 : 0 ≤ p.trust_shrink_ratio) (h2 : p.trust_shrink_ratio ≤ 1)
    (h3 : 1 ≤ p.trust_expand_ratio) (h4 : 0 < p.min_trust_box_size)
    (h5 : p.min_trust_box_size ≤ p.initial_trust_box_size)
    (h6 : p.min_trust_box_size / p.trust_shrink_ratio * (3 / 2) ≤
      p.initial_trust_box_size) :
    ∀ (n iter : ℕ) (r : SQPResults) (st2 : SQPStatus) (r2 : SQPResults)
      (tr : List (ℚ × ℕ)),
      BoxInv p r →
      penaltyLoop p o fuel iter n r = some (st2, r2, tr) →
      BoxInv p r2 ∧ ∀ e ∈ tr, p.min_trust_box_size ≤ e.1 ∧
        e.1 ≤ p.initial_trust_box_size * p.trust_expand_ratio ^ e.2 := by
  intro n
  induction n with
  | zero =>
    intro iter r st2 r2 tr hP h
    simp only [penaltyLoop, Option.some.injEq, Prod.mk.injEq] at h
    refine ⟨h.2.1 ▸ hP, ?_⟩
    intro e he
    rw [← h.2.2] at he
    simp at he
  | succ n ih =>
    intro iter r st2 r2 tr hP h
    cases hconv : convexificationLoop p o fuel 99 .RUNNING
        { r with penalty_iteration := iter, convexify_iteration := 0 } with
    | none => simp [penaltyLoop, hconv] at h
    | some q =>
      obtain ⟨st3, r3, tr3⟩ := q
      obtain ⟨hinv3, htr3⟩ :=
        convexificationLoop_box p o fuel h1 h2 h3 h4 h5 99 .RUNNING _ st3 r3 tr3
          (by exact hP) hconv
      simp only [penaltyLoop, hconv] at h
      split_ifs at h with hv hlim
      · simp only [Option.some.injEq, Prod.mk.injEq] at h
        exact ⟨h.2.1 ▸ hinv3, h.2.2 ▸ htr3⟩
      · simp only [Option.some.injEq, Prod.mk.injEq] at h
        exact ⟨h.2.1 ▸ hinv3, h.2.2 ▸ htr3⟩
      · cases hrec : penaltyLoop p o fuel (iter + 1) n (adjustPenalty p r3) with
        | none => rw [hrec] at h; simp at h
        | some q2 =>
          obtain ⟨st4, r4, tr4⟩ := q2
          rw [hrec] at h
          obtain ⟨hinv4, htr4⟩ := ih (iter + 1) (adjustPenalty p r3) st4 r4 tr4
            (adjustPenalty_box p r3 h3 h4 h5 h6 hinv3) hrec
          simp only [Option.some.injEq, Prod.mk.injEq] at h
          refine ⟨h.2.1 ▸ hinv4, ?_⟩
          intro e he
          rw [← h.2.2] at he
          rcases List.mem_append.mp he with he | he
          · exact htr3 e he
          · exact htr4 e he

/-- C4 (amended): under the parameter sanity conditions
(`0 ≤ trust_shrink_ratio ≤ 1`, `1 ≤ trust_expand_ratio`,
`0 < min_trust_box_size ≤ initial_trust_box_size` and the `adjustPenalty`
reset value `min/shrink · 1.5` not exceeding the initial box), at the start of
every executed trust-region iteration of the whole run the box size `e.1` lies
in `[min_trust_box_size, initial_trust_box_size · trust_expand_ratio ^ e.2]`
where `e.2` counts the accepted steps so far.  (The box variable itself can
drop below `min_trust_box_size` after the final shrink of a loop — see the
counterexample — which is exactly what terminates the trust-region loop.) -/
theorem trust_region_box_bounds (p : SQPParameters) (o : SQPOracle) (fuel : ℕ)
    (x0 init_costs init_cnt_viols : List ℚ) (tr : List (ℚ × ℕ))
    (h1 : 0 ≤ p.trust_shrink_ratio) (h2 : p.trust_shrink_ratio ≤ 1)
    (h3 : 1 ≤ p.trust_expand_ratio) (h4 : 0 < p.min_trust_box_size)
    (h5 : p.min_trust_box_size ≤ p.initial_trust_box_size)
    (h6 : p.min_trust_box_size / p.trust_shrink_ratio * (3 / 2) ≤
      p.initial_trust_box_size)
    (hsolve : (solve p o fuel x0 init_costs init_cnt_viols).map (fun t => t.2.2) =
      some tr) :
    ∀ e ∈ tr, p.min_trust_box_size ≤ e.1 ∧
      e.1 ≤ p.initial_trust_box_size * p.trust_expand_ratio ^ e.2 := by
  obtain ⟨t, ht, htr⟩ := Option.map_eq_some'.mp hsolve
  obtain ⟨st1, r1, tr1⟩ := t
  have htr1 : tr1 = tr := htr
  cases hpen : penaltyLoop p o fuel 0 p.max_merit_coeff_increases
      { best_var_vals := x0,
        best_costs := init_costs,
        best_constraint_violations := init_cnt_viols,
        merit_error_coeffs :=
          List.replicate init_cnt_viols.length p.initial_merit_error_coeff,
        box_size := p.initial_trust_box_size,
        best_exact_merit := init_costs.sum +
          dotProd init_cnt_viols
            (List.replicate init_cnt_viols.length p.initial_merit_error_coeff) } with
  | none => simp [solve, hpen] at ht
  | some q =>
    obtain ⟨st3, r3, tr3⟩ := q
    obtain ⟨-, htrb⟩ :=
      penaltyLoop_box p o fuel h1 h2 h3 h4 h5 h6 p.max_merit_coeff_increases 0 _
        st3 r3 tr3 (by exact ⟨le_trans h4.le h5, by simp⟩) hpen
    simp [solve, hpen] at ht
    split_ifs at ht <;>
      (simp only [Option.some.injEq, Prod.mk.injEq] at ht
       exact htr1 ▸ (ht.2.2 ▸ htrb))

/-- Witness for `trust_region_box_bounds`: on a concrete run every recorded
iteration entry obeys the bounds; instantiated at the first entry. -/
theorem trust_region_box_bounds_witness :
    ((0:ℚ) ≤ testParams.trust_shrink_ratio ∧ testParams.trust_shrink_ratio ≤ 1 ∧
      1 ≤ testParams.trust_expand_ratio ∧ 0 < testParams.min_trust_box_size ∧
      testParams.min_trust_box_size ≤ testParams.initial_trust_box_size ∧
      testParams.min_trust_box_size / testParams.trust_shrink_ratio * (3 / 2) ≤
        testParams.initial_trust_box_size ∧
      (solve testParams failOracle 20 [0] [5] [1]).map (fun t => t.2.2) =
        some [((1:ℚ)/2, 0), (1/4, 0), (1/8, 0), (1/8, 0),
              (3/8, 0), (3/16, 0), (1/8, 0), (1/8, 0)] ∧
      ((1:ℚ)/2, (0:ℕ)) ∈ [((1:ℚ)/2, (0:ℕ)), (1/4, 0), (1/8, 0), (1/8, 0),
              (3/8, 0), (3/16, 0), (1/8, 0), (1/8, 0)]) ∧
    (testParams.min_trust_box_size ≤ (1:ℚ)/2 ∧
      (1:ℚ)/2 ≤ testParams.initial_trust_box_size * testParams.trust_expand_ratio ^ 0) :=
  ⟨⟨by with_unfolding_all decide, by with_unfolding_all decide,
    by with_unfolding_all decide, by with_unfolding_all decide,
    by with_unfolding_all decide, by with_unfolding_all decide,
    by with_unfolding_all rfl, by with_unfolding_all decide⟩,
    trust_region_box_bounds testParams failOracle 20 [0] [5] [1]
      [((1:ℚ)/2, 0), (1/4, 0), (1/8, 0), (1/8, 0),
       (3/8, 0), (3/16, 0), (1/8, 0), (1/8, 0)]
      (by with_unfolding_all decide) (by with_unfolding_all decide)
      (by with_unfolding_all decide) (by with_unfolding_all decide)
      (by with_unfolding_all decide) (by with_unfolding_all decide)
      (by with_unfolding_all rfl) ((1:ℚ)/2, (0:ℕ)) (by with_unfolding_all decide)⟩

/-- Counterexample to C4 as stated: on a constraint-free always-failing run
the solver finishes with `box_size = 1/16`, strictly below
`min_trust_box_size = 1/8` — the box does drop below the minimum (that drop
is the trust-region loop's exit and tiny-trust-region convergence trigger). -/
theorem trust_region_box_lower_counterexample :
    (solve testParams failOracle 20 [0] [5] []).map (fun t => (t.1, t.2.1.box_size)) =
      some (SQPStatus.NLP_CONVERGED, 1/16) ∧
    ¬ (testParams.min_trust_box_size ≤ (1:ℚ)/16) :=
  ⟨by with_unfolding_all rfl, by with_unfolding_all decide⟩

end Trajopt
